import Mathlib

/-!
Shallow embedding of the stock-ledger transaction engine of the
ControlMax inventory application (sale, purchase, assembly and reversal
paths, the virtual-stock calculator, and the add-to-cart gate), together
with proofs about the claims of the specification.

Modelling conventions:
* JS numbers used as quantities/stock levels are embedded as `Int`
  (`Math.floor(a / b)` becomes `Int.fdiv`), money values as `Rat`.
* `x || 0` reads of numeric fields are the identity on our total fields
  (`0 || 0 = 0` in JS as well); optional `costPrice`/`sku` fields are
  embedded with the `|| 0` / `|| ''` default already applied, which is
  how every engine read observes them.
* The local-storage document store (`storage` in the source) buffers the
  writes issued inside `runTransaction` and applies them sequentially
  only after the update function returns without throwing; a thrown
  error commits nothing.  The embedding mirrors this: each engine
  operation builds a list of buffered operations (`Op`) and the commit
  is a left fold of `applyOp`; a validation error yields `Except.error`
  and the caller keeps the unchanged state.
* `storage.set` replaces the first record with the same id or appends,
  `storage.update` rewrites the first record with the matching id
  (the engine only updates ids it has just read, so the missing-id
  throw of `storage.update` is unreachable and modelled as a no-op),
  and `storage.delete` removes every record with the id.
-/

/-- Decidable equality of `Except` results, so that concrete runs of
the engine can be checked by `decide`. -/
instance instDecEqExcept {ε α : Type} [DecidableEq ε] [DecidableEq α] : DecidableEq (Except ε α) := fun x y =>
  match x, y with
  | Except.ok a, Except.ok b =>
    if h : a = b then Decidable.isTrue (congrArg Except.ok h)
    else Decidable.isFalse (fun hc => h (Except.ok.inj hc))
  | Except.error a, Except.error b =>
    if h : a = b then Decidable.isTrue (congrArg Except.error h)
    else Decidable.isFalse (fun hc => h (Except.error.inj hc))
  | Except.ok _, Except.error _ => Decidable.isFalse (fun hc => Except.noConfusion hc)
  | Except.error _, Except.ok _ => Decidable.isFalse (fun hc => Except.noConfusion hc)

/-- A bill-of-materials entry `{productId, quantity}`. -/
structure BomEntry where
  productId : String
  quantity : Int
  deriving Repr, DecidableEq

/-- A product record; only the fields read or written by the ledger
engine are embedded.  `costPrice` is stored with the `|| 0` default
applied and `sku` with the `|| ''` default. -/
structure Product where
  id : String
  name : String
  currentStock : Int
  costPrice : Rat
  sku : String
  supplierId : Option String
  bom : Option (List BomEntry)
  deriving Repr, DecidableEq

/-- Transaction type: `IN` is a sale, `OUT` a purchase (the source's
deliberately inverted naming), `ASSEMBLY` an assembly run. -/
inductive TxnType where
  | IN
  | OUT
  | ASSEMBLY
  deriving Repr, DecidableEq

/-- Transaction status values used by the source. -/
inductive Status where
  | COMPLETED
  | CANCELLED
  | PENDING_PAYMENT
  deriving Repr, DecidableEq

/-- A persisted Transaction record (date and ownerId omitted: no claim
mentions them and no engine decision reads them). -/
structure TxnRecord where
  id : String
  type : TxnType
  status : Status
  clientId : Option String
  clientName : Option String
  supplierId : Option String
  invoiceNumber : Option String
  notes : Option String
  totalValue : Rat
  discountValue : Rat
  netTotal : Rat
  deriving Repr, DecidableEq

/-- A persisted TransactionItem record. -/
structure TxnItemRecord where
  id : String
  transactionId : String
  productId : String
  productName : String
  quantity : Int
  price : Rat
  costPrice : Option Rat
  sku : Option String
  deriving Repr, DecidableEq

/-- The document store: the three collections the engine touches. -/
structure DB where
  products : List Product
  transactions : List TxnRecord
  transaction_items : List TxnItemRecord
  deriving Repr, DecidableEq

/-- `products.find(p => p.id === pid)`. -/
def findProduct (db : DB) (pid : String) : Option Product :=
  db.products.find? (fun p => p.id = pid)

/-- `transactions.find(t => t.id === i)` (used only in statements). -/
def findTxn (db : DB) (i : String) : Option TxnRecord :=
  db.transactions.find? (fun t => t.id = i)

/-- Current stock of a product id, `none` when the product is absent
(used only in statements). -/
def getStock (db : DB) (pid : String) : Option Int :=
  (findProduct db pid).map Product.currentStock

/-- `Array.isArray(p.bom) && p.bom.length > 0`. -/
def hasBom (p : Product) : Bool :=
  match p.bom with
  | some l => !l.isEmpty
  | none => false

/-- `storage.update` on the products collection: rewrite the first
record whose id matches (`findIndex`); a missing id is a no-op here
(unreachable on the engine paths, which only update ids they read). -/
def updateFirst (pid : String) (f : Product → Product) : List Product → List Product
  | [] => []
  | p :: ps => if p.id = pid then f p :: ps else p :: updateFirst pid f ps

/-- `storage.set` on the transactions collection: replace the first
record with the same id, or push at the end. -/
def setTxnRec (t : TxnRecord) : List TxnRecord → List TxnRecord
  | [] => [t]
  | u :: us => if u.id = t.id then t :: us else u :: setTxnRec t us

/-- `storage.set` on the transaction_items collection. -/
def setItemRec (x : TxnItemRecord) : List TxnItemRecord → List TxnItemRecord
  | [] => [x]
  | u :: us => if u.id = x.id then x :: us else u :: setItemRec x us

/-- A write buffered by the transaction shim (`operations` array):
the exact `set` / `update` / `delete` payloads the engine issues. -/
inductive Op where
  | setTxn (t : TxnRecord)
  | setItem (x : TxnItemRecord)
  | updateStockAbs (productId : String) (newStock : Int)
  | updateStockInc (productId : String) (delta : Int)
  | updatePurchase (productId : String) (qty : Int) (cost : Rat) (supplierId : String)
  | deleteTxn (i : String)
  | deleteItem (i : String)
  deriving Repr, DecidableEq

/-- Commit a single buffered operation against the store. -/
def applyOp (db : DB) : Op → DB
  | Op.setTxn t => { db with transactions := setTxnRec t db.transactions }
  | Op.setItem x => { db with transaction_items := setItemRec x db.transaction_items }
  | Op.updateStockAbs pid s =>
      { db with products := updateFirst pid (fun p => { p with currentStock := s }) db.products }
  | Op.updateStockInc pid d =>
      { db with products := updateFirst pid (fun p => { p with currentStock := p.currentStock + d }) db.products }
  | Op.updatePurchase pid q c sid =>
      let f := fun p => { p with currentStock := p.currentStock + q, costPrice := c, supplierId := some sid }
      { db with products := updateFirst pid f db.products }
  | Op.deleteTxn i => { db with transactions := db.transactions.filter (fun t => ¬ t.id = i) }
  | Op.deleteItem i => { db with transaction_items := db.transaction_items.filter (fun t => ¬ t.id = i) }

/-- Commit a buffered operation list in order (the commit loop of
`storage.runTransaction`). -/
def commitOps (db : DB) (ops : List Op) : DB :=
  ops.foldl applyOp db

/-- Loop body of `computeVirtualStock` (src/lib/products.ts): `minUnits`
starts at `Infinity` (embedded as `none`), each component either early
returns 0 (`Except.error`, when `quantityPerUnit ≤ 0`) or lowers
`minUnits` to `min minUnits (Math.floor(available / neededPerUnit))`. -/
def vsLoop (ps : List Product) : List BomEntry → Option Int → Except Unit (Option Int)
  | [], minUnits => Except.ok minUnits
  | comp :: rest, minUnits =>
    let compProduct := ps.find? (fun p => p.id = comp.productId)
    let available := (compProduct.map Product.currentStock).getD 0
    let neededPerUnit := comp.quantity
    if neededPerUnit ≤ 0 then Except.error ()
    else
      let producible := Int.fdiv available neededPerUnit
      let minUnits' :=
        match minUnits with
        | none => producible
        | some m => min m producible
      vsLoop ps rest (some minUnits')

/-- `computeVirtualStock(finalProduct, allProducts)` from
src/lib/products.ts: 0 when an input is absent, the BOM is absent or
empty, or some `quantityPerUnit ≤ 0`; otherwise the minimum over BOM
components of `Math.floor(componentStock / quantityPerUnit)` (a missing
component counts as stock 0).  The final `Number.isFinite` guard maps
the never-assigned `Infinity` (`Except.ok none`) to 0. -/
def computeVirtualStock (finalProduct : Option Product) (allProducts : Option (List Product)) : Int :=
  match finalProduct, allProducts with
  | some f, some ps =>
    match f.bom with
    | none => 0
    | some bom =>
      if bom.length = 0 then 0
      else
        match vsLoop ps bom none with
        | Except.error _ => 0
        | Except.ok none => 0
        | Except.ok (some m) => m
  | _, _ => 0

/-- A cart line of the sale form. -/
structure CartItem where
  productId : String
  productName : String
  quantity : Int
  price : Rat
  availableStock : Int
  costPrice : Rat
  deriving Repr, DecidableEq

/-- A `productDetails` entry of `onFinalizeSale`: the phase-1 snapshot
of the sold product together with the cart line whose `availableStock`
was overwritten with `fromStock`. -/
structure SaleDetail where
  snap : Product
  item : CartItem
  deriving Repr, DecidableEq

/-- A `consumptionOps` entry of `onFinalizeSale`: component reference,
its phase-1 snapshot and the required consumption. -/
structure ConsumptionOp where
  compId : String
  snap : Product
  required : Int
  deriving Repr, DecidableEq

/-- Validation errors thrown inside the sale transaction body. -/
inductive SaleError where
  | productNotFound (name : String)
  | componentNotFound (i : String)
  | insufficientComponent (name : String) (required available : Int)
  deriving Repr, DecidableEq

/-- The per-component check loop of `onFinalizeSale` phase 1: each BOM
component must exist and `shortfall * comp.quantity` must not exceed its
current stock; components with a positive requirement are pushed onto
`consumptionOps`. -/
def checkComponents (db : DB) (shortfall : Int) : List BomEntry → Except SaleError (List ConsumptionOp)
  | [] => Except.ok []
  | comp :: rest =>
    match findProduct db comp.productId with
    | none => Except.error (SaleError.componentNotFound comp.productId)
    | some compP =>
      let required := shortfall * comp.quantity
      let available := compP.currentStock
      if available < required then
        Except.error (SaleError.insufficientComponent compP.name required available)
      else
        (checkComponents db shortfall rest).map (fun ops =>
          if 0 < required then
            { compId := comp.productId, snap := compP, required := required } :: ops
          else ops)

/-- Phase 1 of `onFinalizeSale` for one cart line: read the product
(`NotFound` aborts), compute `fromStock = min(currentStock, quantity)`
and `shortfall = max(0, quantity - fromStock)`, and when the product
has a non-empty BOM run the component checks.  There is no
insufficiency check for products without a BOM. -/
def checkItem (db : DB) (item : CartItem) : Except SaleError (SaleDetail × List ConsumptionOp) :=
  match findProduct db item.productId with
  | none => Except.error (SaleError.productNotFound item.productName)
  | some p =>
    let currentStock := p.currentStock
    let fromStock := min currentStock item.quantity
    let shortfall := max 0 (item.quantity - fromStock)
    let compRes := if hasBom p then checkComponents db shortfall (p.bom.getD []) else Except.ok []
    compRes.map (fun ops =>
      ({ snap := p, item := { item with availableStock := fromStock } }, ops))

/-- The phase-1 loop over the whole cart, threading the thrown error of
the first failing line (reads only touch the committed state, so each
line is checked independently). -/
def saleReadPhase (db : DB) : List CartItem → Except SaleError (List (SaleDetail × List ConsumptionOp))
  | [] => Except.ok []
  | item :: rest =>
    match checkItem db item with
    | Except.error e => Except.error e
    | Except.ok r =>
      match saleReadPhase db rest with
      | Except.error e => Except.error e
      | Except.ok rs => Except.ok (r :: rs)

/-- `assembledCostPerUnit` of `onFinalizeSale` phase 2: for a product
with non-empty BOM, `Σ (componentCostPrice || 0) * comp.quantity` over
the BOM (components re-read from the committed state), otherwise 0. -/
def assembledCostPerUnit (db : DB) (p : Product) : Rat :=
  if hasBom p then
    (p.bom.getD []).foldl
      (fun s comp => s + ((findProduct db comp.productId).map Product.costPrice).getD 0 * (comp.quantity : Rat)) 0
  else 0

/-- The TransactionItem written for one sold cart line: blended unit
cost `(fromStock * readyCost + shortfall * assembledCostPerUnit) /
quantity` when the quantity is positive, `readyCost` otherwise. -/
def saleItemRecord (db : DB) (txnId : String) (itemId : String) (d : SaleDetail) : TxnItemRecord :=
  let fromStock := d.item.availableStock
  let shortfall := max 0 (d.item.quantity - fromStock)
  let readyCost := d.snap.costPrice
  let totalQty := d.item.quantity
  let costPerUnit : Rat :=
    if 0 < totalQty then
      ((fromStock : Rat) * readyCost + (shortfall : Rat) * assembledCostPerUnit db d.snap) / (totalQty : Rat)
    else readyCost
  { id := itemId, transactionId := txnId, productId := d.item.productId,
    productName := d.item.productName, quantity := d.item.quantity,
    price := d.item.price, costPrice := some costPerUnit, sku := none }

/-- `subtotal` of the sale form: `Σ item.quantity * item.price`. -/
def saleSubtotal (cart : List CartItem) : Rat :=
  cart.foldl (fun acc item => acc + (item.quantity : Rat) * item.price) 0

/-- The Transaction record written by `onFinalizeSale`: `type IN`,
`netTotal = subtotal - discount`. -/
def saleTxnRecord (txnId clientId clientName : String) (paymentStatus : Status)
    (discount : Rat) (cart : List CartItem) : TxnRecord :=
  { id := txnId, type := TxnType.IN, status := paymentStatus,
    clientId := some clientId, clientName := some clientName,
    supplierId := none, invoiceNumber := none, notes := none,
    totalValue := saleSubtotal cart, discountValue := discount,
    netTotal := saleSubtotal cart - discount }

/-- Phase-2 write loop over `productDetails`: one TransactionItem and
one absolute stock update (`snapshotStock - fromStock`) per sold line;
`i` threads the fresh document ids (`itemIds`). -/
def saleItemOps (db : DB) (txnId : String) (itemIds : List String) : Nat → List SaleDetail → List Op
  | _, [] => []
  | i, d :: rest =>
    Op.setItem (saleItemRecord db txnId (itemIds.getD i "") d)
      :: Op.updateStockAbs d.item.productId (d.snap.currentStock - d.item.availableStock)
      :: saleItemOps db txnId itemIds (i + 1) rest

/-- Phase-2 write loop over `consumptionOps`: an absolute stock update
`snapshotStock - required` per consumed component. -/
def consOps : List ConsumptionOp → List Op
  | [] => []
  | c :: rest => Op.updateStockAbs c.compId (c.snap.currentStock - c.required) :: consOps rest

/-- The full buffered-operation list of the sale transaction body, or
the thrown validation error. -/
def saleOps (db : DB) (txnId : String) (itemIds : List String) (clientId clientName : String)
    (paymentStatus : Status) (discount : Rat) (cart : List CartItem) : Except SaleError (List Op) :=
  (saleReadPhase db cart).map (fun results =>
    let productDetails := results.map Prod.fst
    let consumptionOps := results.flatMap Prod.snd
    Op.setTxn (saleTxnRecord txnId clientId clientName paymentStatus discount cart)
      :: (saleItemOps db txnId itemIds 0 productDetails ++ consOps consumptionOps))

/-- `onFinalizeSale` (src/components/sales/new-sale-form.tsx): run the
transaction body; on success the buffered writes are committed in
order, on a thrown validation error nothing is committed. -/
def onFinalizeSale (db : DB) (txnId : String) (itemIds : List String) (clientId clientName : String)
    (paymentStatus : Status) (discount : Rat) (cart : List CartItem) : Except SaleError DB :=
  (saleOps db txnId itemIds clientId clientName paymentStatus discount cart).map (commitOps db)

/-- The state observed after `onFinalizeSale`: the committed state on
success, the unchanged caller state when the transaction body threw
(the shim applies its buffered operations only after the body returns
normally). -/
def saleFinalState (db : DB) (txnId : String) (itemIds : List String) (clientId clientName : String)
    (paymentStatus : Status) (discount : Rat) (cart : List CartItem) : DB :=
  match onFinalizeSale db txnId itemIds clientId clientName paymentStatus discount cart with
  | Except.ok db' => db'
  | Except.error _ => db

/-- A purchase line `{productId, quantity, price}` (price is the unit
cost). -/
structure PurchaseItem where
  productId : String
  quantity : Int
  price : Rat
  deriving Repr, DecidableEq

/-- `subtotal` of the purchase form: `Σ (quantity || 0) * (price || 0)`. -/
def purchaseSubtotal (items : List PurchaseItem) : Rat :=
  items.foldl (fun acc it => acc + (it.quantity : Rat) * it.price) 0

/-- The Transaction record written by `onFinalizePurchase`: `type OUT`,
status COMPLETED, `netTotal = subtotal - discount`. -/
def purchaseTxnRecord (txnId supplierId invoiceNumber notes : String)
    (discountValue : Rat) (items : List PurchaseItem) : TxnRecord :=
  { id := txnId, type := TxnType.OUT, status := Status.COMPLETED,
    clientId := none, clientName := none, supplierId := some supplierId,
    invoiceNumber := some invoiceNumber, notes := some notes,
    totalValue := purchaseSubtotal items, discountValue := discountValue,
    netTotal := purchaseSubtotal items - discountValue }

/-- The per-line loop of `onFinalizePurchase`: a line whose product is
not found is silently skipped (`if (!product) return`); otherwise one
TransactionItem (no `costPrice` field) plus one product update
(`currentStock: increment(qty), costPrice: price, supplierId`) is
buffered.  `i` threads the fresh item-document ids. -/
def purchaseItemOps (db : DB) (txnId : String) (itemIds : List String) (supplierId : String) :
    Nat → List PurchaseItem → List Op
  | _, [] => []
  | i, it :: rest =>
    match findProduct db it.productId with
    | none => purchaseItemOps db txnId itemIds supplierId i rest
    | some product =>
      Op.setItem { id := itemIds.getD i "", transactionId := txnId,
                   productId := it.productId, productName := product.name,
                   quantity := it.quantity, price := it.price,
                   costPrice := none, sku := some product.sku }
        :: Op.updatePurchase it.productId it.quantity it.price supplierId
        :: purchaseItemOps db txnId itemIds supplierId (i + 1) rest

/-- `onFinalizePurchase` (the purchase form): build the write batch
(one Transaction, then the per-line docs) and commit it.  There is no
validation of any kind — no stock-sufficiency check and no hard failure
on a missing product — so the operation always commits. -/
def onFinalizePurchase (db : DB) (txnId : String) (itemIds : List String)
    (supplierId invoiceNumber notes : String) (discountValue : Rat)
    (items : List PurchaseItem) : DB :=
  commitOps db
    (Op.setTxn (purchaseTxnRecord txnId supplierId invoiceNumber notes discountValue items)
      :: purchaseItemOps db txnId itemIds supplierId 0 items)

/-- Validation errors thrown inside `processAssemblyToStock`. -/
inductive AsmError where
  | finalNotFound
  | noBomDefined
  | componentNotFound (i : String)
  | insufficientComponent (name : String) (required available : Int)
  deriving Repr, DecidableEq

/-- Component check loop of `processAssemblyToStock`: every component
must exist and `quantityToAssemble * comp.quantity` must not exceed its
stock; every component is pushed onto `componentSnaps` (no
positivity filter, unlike the sale path). -/
def asmCheckComponents (db : DB) (quantityToAssemble : Int) :
    List BomEntry → Except AsmError (List ConsumptionOp)
  | [] => Except.ok []
  | comp :: rest =>
    match findProduct db comp.productId with
    | none => Except.error (AsmError.componentNotFound comp.productId)
    | some compP =>
      let required := quantityToAssemble * comp.quantity
      let available := compP.currentStock
      if available < required then
        Except.error (AsmError.insufficientComponent compP.name required available)
      else
        (asmCheckComponents db quantityToAssemble rest).map (fun ops =>
          { compId := comp.productId, snap := compP, required := required } :: ops)

/-- Per-component write loop of `processAssemblyToStock`: a consumption
TransactionItem (price 0, costPrice of the component snapshot) plus an
absolute stock update per component. -/
def asmComponentOps (txnId : String) (itemIds : List String) : Nat → List ConsumptionOp → List Op
  | _, [] => []
  | i, c :: rest =>
    Op.setItem { id := itemIds.getD i "", transactionId := txnId,
                 productId := c.compId, productName := c.snap.name,
                 quantity := c.required, price := 0,
                 costPrice := some c.snap.costPrice, sku := none }
      :: Op.updateStockAbs c.compId (c.snap.currentStock - c.required)
      :: asmComponentOps txnId itemIds (i + 1) rest

/-- `processAssemblyToStock` (src/services/bom.ts): requires the final
product to exist and to have a non-empty BOM, checks every component,
then commits an ASSEMBLY Transaction, one consumption item + stock
update per component, the final-product stock credit, and an
informational final-product item (price and costPrice 0). -/
def processAssemblyToStock (db : DB) (txnId : String) (itemIds : List String)
    (finalItemId : String) (finalProductId : String) (quantityToAssemble : Int) :
    Except AsmError DB :=
  match findProduct db finalProductId with
  | none => Except.error AsmError.finalNotFound
  | some finalP =>
    if hasBom finalP then
      (asmCheckComponents db quantityToAssemble (finalP.bom.getD [])).map (fun componentSnaps =>
        commitOps db
          (Op.setTxn { id := txnId, type := TxnType.ASSEMBLY, status := Status.COMPLETED,
                       clientId := none, clientName := none, supplierId := none,
                       invoiceNumber := none, notes := some "Montagem para estoque (BOM)",
                       totalValue := 0, discountValue := 0, netTotal := 0 }
            :: (asmComponentOps txnId itemIds 0 componentSnaps
                ++ [Op.updateStockAbs finalProductId (finalP.currentStock + quantityToAssemble),
                    Op.setItem { id := finalItemId, transactionId := txnId,
                                 productId := finalProductId, productName := finalP.name,
                                 quantity := quantityToAssemble, price := 0,
                                 costPrice := some 0, sku := none }])))
    else Except.error AsmError.noBomDefined

/-- The state observed after `processAssemblyToStock` (unchanged on a
thrown validation error). -/
def asmFinalState (db : DB) (txnId : String) (itemIds : List String)
    (finalItemId : String) (finalProductId : String) (quantityToAssemble : Int) : DB :=
  match processAssemblyToStock db txnId itemIds finalItemId finalProductId quantityToAssemble with
  | Except.ok db' => db'
  | Except.error _ => db

/-- Stock-adjustment loop of `handleRevert`: for each item whose
product still exists, buffer `currentStock: increment(adjustment)`
where the adjustment is `+quantity` for an IN transaction and
`-quantity` for every other type; items whose product was deleted are
silently skipped. -/
def revertStockOps (db : DB) (txnType : TxnType) : List TxnItemRecord → List Op
  | [] => []
  | it :: rest =>
    let adjustment := if txnType = TxnType.IN then it.quantity else -it.quantity
    if db.products.any (fun p => p.id = it.productId) then
      Op.updateStockInc it.productId adjustment :: revertStockOps db txnType rest
    else revertStockOps db txnType rest

/-- Deletion loop of `handleRevert`: delete every TransactionItem of
the transaction. -/
def revertDeleteOps : List TxnItemRecord → List Op
  | [] => []
  | it :: rest => Op.deleteItem it.id :: revertDeleteOps rest

/-- `handleRevert` (src/components/transactions/details-dialog.tsx):
abort unchanged when the transaction is already CANCELLED; otherwise,
over the items of the transaction, buffer the per-item stock
adjustments (existence checked against the pre-state), the item
deletions and the transaction deletion, and commit.  The non-atomic
fallback batch path is only reached on a storage failure, which the
fault-free embedding does not model. -/
def handleRevert (db : DB) (txn : TxnRecord) : DB :=
  if txn.status = Status.CANCELLED then db
  else
    let freshItems := db.transaction_items.filter (fun it => it.transactionId = txn.id)
    commitOps db
      ((revertStockOps db txn.type freshItems ++ revertDeleteOps freshItems)
        ++ [Op.deleteTxn txn.id])

/-- Outcomes of `handleAddItem` that show a destructive toast and leave
the cart unchanged. -/
inductive AddError where
  | invalidSelection
  | insufficientStock
  | insufficientInsumos
  | insufficientRawMaterial (componentIds : List String)
  | exceedsAvailable
  deriving Repr, DecidableEq

/-- `costPerUnit` of `handleAddItem`: BOM cost `Σ (componentCost || 0)
* comp.quantity` for BOM products, the product's own `costPrice || 0`
otherwise. -/
def addItemCostPerUnit (allProducts : List Product) (sp : Product) : Rat :=
  if hasBom sp then
    (sp.bom.getD []).foldl
      (fun s comp => s + ((allProducts.find? (fun q => q.id = comp.productId)).map Product.costPrice).getD 0 * (comp.quantity : Rat)) 0
  else sp.costPrice

/-- The `setCart` updater of `handleAddItem`: merge into an existing
line (rejecting when the merged quantity exceeds `maxSellable =
currentStock + virtualStock`) or append a new line. -/
def addToCart (sp : Product) (quantity : Int) (currentPrice costPerUnit : Rat)
    (maxSellable : Int) : List CartItem → Except AddError (List CartItem)
  | [] => Except.ok [{ productId := sp.id, productName := sp.name, quantity := quantity,
                       price := currentPrice, availableStock := sp.currentStock,
                       costPrice := costPerUnit }]
  | it :: rest =>
    if it.productId = sp.id then
      if maxSellable < it.quantity + quantity then Except.error AddError.exceedsAvailable
      else
        let merged := { it with quantity := it.quantity + quantity, price := currentPrice, costPrice := costPerUnit }
        Except.ok (merged :: rest)
    else (addToCart sp quantity currentPrice costPerUnit maxSellable rest).map (it :: ·)

/-- `handleAddItem` (src/components/sales/new-sale-form.tsx): the
add-to-cart gate.  Products without a BOM are rejected when `quantity >
currentStock`; BOM products when `quantity > currentStock +
virtualStock` or when some component cannot cover `shortfall *
comp.quantity`.  (The NaN sentinel used for an empty price input is
not representable in `Rat` and is not modelled.) -/
def handleAddItem (selectedProduct : Option Product) (quantity : Int) (currentPrice : Rat)
    (allProducts : List Product) (cart : List CartItem) : Except AddError (List CartItem) :=
  match selectedProduct with
  | none => Except.error AddError.invalidSelection
  | some sp =>
    if quantity ≤ 0 then Except.error AddError.invalidSelection
    else
      let virtualStock := computeVirtualStock (some sp) (some allProducts)
      if hasBom sp = false ∧ sp.currentStock < quantity then
        Except.error AddError.insufficientStock
      else if hasBom sp = true ∧ sp.currentStock + virtualStock < quantity then
        Except.error AddError.insufficientInsumos
      else
        let shortfall := max 0 (quantity - sp.currentStock)
        let insufficient :=
          if hasBom sp then
            ((sp.bom.getD []).filter (fun comp =>
              ((allProducts.find? (fun q => q.id = comp.productId)).map Product.currentStock).getD 0
                < shortfall * comp.quantity)).map BomEntry.productId
          else []
        if insufficient.isEmpty = false then
          Except.error (AddError.insufficientRawMaterial insufficient)
        else
          addToCart sp quantity currentPrice (addItemCostPerUnit allProducts sp)
            (sp.currentStock + virtualStock) cart

/-- Product-collection effect of one buffered operation (proof-layer
projection of `applyOp`). -/
def applyOpProducts (op : Op) (l : List Product) : List Product :=
  match op with
  | Op.updateStockAbs pid s => updateFirst pid (fun p => { p with currentStock := s }) l
  | Op.updateStockInc pid d => updateFirst pid (fun p => { p with currentStock := p.currentStock + d }) l
  | Op.updatePurchase pid q c sid =>
      updateFirst pid (fun p => { p with currentStock := p.currentStock + q, costPrice := c, supplierId := some sid }) l
  | _ => l

/-- Transaction-collection effect of one buffered operation. -/
def applyOpTxns (op : Op) (l : List TxnRecord) : List TxnRecord :=
  match op with
  | Op.setTxn t => setTxnRec t l
  | Op.deleteTxn i => l.filter (fun t => ¬ t.id = i)
  | _ => l

/-- Item-collection effect of one buffered operation. -/
def applyOpItems (op : Op) (l : List TxnItemRecord) : List TxnItemRecord :=
  match op with
  | Op.setItem x => setItemRec x l
  | Op.deleteItem i => l.filter (fun t => ¬ t.id = i)
  | _ => l

/-- The product id an operation updates, if any (proof-layer). -/
def Op.target : Op → Option String
  | Op.updateStockAbs pid _ => some pid
  | Op.updateStockInc pid _ => some pid
  | Op.updatePurchase pid _ _ _ => some pid
  | _ => none

/-- The record transformation an operation applies to its target
product (identity for non-product operations; proof-layer). -/
def Op.applyToProduct : Op → Product → Product
  | Op.updateStockAbs _ s, p => { p with currentStock := s }
  | Op.updateStockInc _ d, p => { p with currentStock := p.currentStock + d }
  | Op.updatePurchase _ q c sid, p => { p with currentStock := p.currentStock + q, costPrice := c, supplierId := some sid }
  | _, p => p

/-- Proof-layer predicate: operations that can only write non-negative
absolute stock values and never touch stock otherwise. -/
def opSafe : Op → Prop
  | Op.updateStockAbs _ s => 0 ≤ s
  | Op.updateStockInc _ _ => False
  | Op.updatePurchase _ _ _ _ => False
  | _ => True

/-- Placeholder product (only used as a `getD` default in statements
about indices that are in range). -/
def dummyProduct : Product :=
  { id := "", name := "", currentStock := 0, costPrice := 0, sku := "", supplierId := none, bom := none }

/-- Placeholder cart item (`getD` default). -/
def dummyCartItem : CartItem :=
  { productId := "", productName := "", quantity := 0, price := 0, availableStock := 0, costPrice := 0 }

/-- Placeholder transaction item (`getD` default). -/
def dummyItemRecord : TxnItemRecord :=
  { id := "", transactionId := "", productId := "", productName := "", quantity := 0,
    price := 0, costPrice := none, sku := none }

/-- Placeholder sale detail (`getD` default). -/
def dummySaleDetail : SaleDetail :=
  { snap := dummyProduct, item := dummyCartItem }

/-- `fromStock = Math.min(currentStock, quantity)` of a cart line
against its product snapshot (statement helper). -/
def fromStockOf (p : Product) (c : CartItem) : Int :=
  min p.currentStock c.quantity

/-- `shortfall = Math.max(0, quantity - fromStock)` of a cart line
(statement helper). -/
def shortfallOf (p : Product) (c : CartItem) : Int :=
  max 0 (c.quantity - fromStockOf p c)

/-- The `productDetails` entry phase 1 produces for a cart line whose
product is found (statement helper; the `none` branch never occurs on
a successful run). -/
def saleDetailSpec (db : DB) (c : CartItem) : SaleDetail :=
  match findProduct db c.productId with
  | some p => { snap := p, item := { c with availableStock := fromStockOf p c } }
  | none => { snap := dummyProduct, item := c }

/-- The consumption entries the component-check loop pushes for one
BOM with a given shortfall (statement helper). -/
def consSpec (db : DB) (shortfall : Int) (bom : List BomEntry) : List ConsumptionOp :=
  bom.filterMap (fun comp =>
    match findProduct db comp.productId with
    | none => none
    | some cp =>
      if 0 < shortfall * comp.quantity then
        some { compId := comp.productId, snap := cp, required := shortfall * comp.quantity }
      else none)

/-- The consumption entries one cart line contributes (statement
helper). -/
def saleConsSpec (db : DB) (c : CartItem) : List ConsumptionOp :=
  match findProduct db c.productId with
  | none => []
  | some p => if hasBom p then consSpec db (shortfallOf p c) (p.bom.getD []) else []

/-- Ids of the components one cart line consumes (statement helper). -/
def lineConsIds (db : DB) (c : CartItem) : List String :=
  (saleConsSpec db c).map ConsumptionOp.compId

/-- The TransactionItems a successful sale appends, in cart order
(statement helper mirroring the write loop). -/
def saleCreatedItems (db : DB) (txnId : String) (itemIds : List String) : Nat → List SaleDetail → List TxnItemRecord
  | _, [] => []
  | i, d :: rest =>
    saleItemRecord db txnId (itemIds.getD i "") d :: saleCreatedItems db txnId itemIds (i + 1) rest

/-- The TransactionItems an operation list inserts, in order
(proof-layer). -/
def newItemsOf (ops : List Op) : List TxnItemRecord :=
  ops.filterMap (fun op => match op with | Op.setItem x => some x | _ => none)

/-- The Transactions an operation list inserts, in order
(proof-layer). -/
def newTxnsOf (ops : List Op) : List TxnRecord :=
  ops.filterMap (fun op => match op with | Op.setTxn t => some t | _ => none)

/-- The stock delta of an increment operation (proof-layer). -/
def opDelta : Op → Int
  | Op.updateStockInc _ d => d
  | _ => 0

/-- Whether an operation writes the transactions collection
(proof-layer). -/
def Op.touchesTxns : Op → Bool
  | Op.setTxn _ => true
  | Op.deleteTxn _ => true
  | _ => false

/-- Whether an operation writes the transaction_items collection
(proof-layer). -/
def Op.touchesItems : Op → Bool
  | Op.setItem _ => true
  | Op.deleteItem _ => true
  | _ => false

/-- `producible = Math.floor(componentStock / quantityPerUnit)` for one
BOM component against a product list (statement helper mirroring the
loop body of `computeVirtualStock`). -/
def vsProducible (ps : List Product) (comp : BomEntry) : Int :=
  Int.fdiv (((ps.find? (fun p => p.id = comp.productId)).map Product.currentStock).getD 0) comp.quantity

/-- Example product P: no BOM, stock 10, cost 5 (test data). -/
def exP : Product :=
  { id := "P", name := "Produto P", currentStock := 10, costPrice := 5, sku := "", supplierId := none, bom := none }

/-- Example component C: stock 10, cost 3 (test data). -/
def exC : Product :=
  { id := "C", name := "Insumo C", currentStock := 10, costPrice := 3, sku := "", supplierId := none, bom := none }

/-- Example component C with stock 4 (test data, scenario C). -/
def exC4 : Product :=
  { id := "C", name := "Insumo C", currentStock := 4, costPrice := 3, sku := "", supplierId := none, bom := none }

/-- Example final product F: BOM = two units of C per unit, stock 0
(test data). -/
def exF : Product :=
  { id := "F", name := "Final F", currentStock := 0, costPrice := 7, sku := "", supplierId := none,
    bom := some [{ productId := "C", quantity := 2 }] }

/-- Example final product A: BOM = one unit of C per unit, stock 0
(test data). -/
def exA : Product :=
  { id := "A", name := "Final A", currentStock := 0, costPrice := 0, sku := "", supplierId := none,
    bom := some [{ productId := "C", quantity := 1 }] }

/-- Example final product B with the same BOM as A (test data). -/
def exB : Product :=
  { id := "B", name := "Final B", currentStock := 0, costPrice := 0, sku := "", supplierId := none,
    bom := some [{ productId := "C", quantity := 1 }] }

/-- Store with only P (test data). -/
def dbScenA : DB := { products := [exP], transactions := [], transaction_items := [] }

/-- Store with F and C (test data, scenario B). -/
def dbScenB : DB := { products := [exF, exC], transactions := [], transaction_items := [] }

/-- Store with F and the low-stock C (test data, scenario C). -/
def dbScenC : DB := { products := [exF, exC4], transactions := [], transaction_items := [] }

/-- Store with two BOM products sharing component C (test data). -/
def dbShared : DB := { products := [exA, exB, exC], transactions := [], transaction_items := [] }

/-- Cart line: 3 units of P at 50 (test data, scenario A). -/
def exItemP : CartItem :=
  { productId := "P", productName := "Produto P", quantity := 3, price := 50, availableStock := 10, costPrice := 5 }

/-- Cart line: 15 units of P at 50 — more than P's stock (test data). -/
def exItemPOver : CartItem :=
  { productId := "P", productName := "Produto P", quantity := 15, price := 50, availableStock := 10, costPrice := 5 }

/-- Cart line: 3 units of F at 50 (test data, scenario B). -/
def exItemF : CartItem :=
  { productId := "F", productName := "Final F", quantity := 3, price := 50, availableStock := 0, costPrice := 6 }

/-- Cart line: 2 units of A (test data). -/
def exItemA : CartItem :=
  { productId := "A", productName := "Final A", quantity := 2, price := 1, availableStock := 0, costPrice := 0 }

/-- Cart line: 2 units of B (test data). -/
def exItemB : CartItem :=
  { productId := "B", productName := "Final B", quantity := 2, price := 1, availableStock := 0, costPrice := 0 }

/-- Component item of an ASSEMBLY transaction: 4 units of C consumed
(test data). -/
def exAsmItemC : TxnItemRecord :=
  { id := "i1", transactionId := "a1", productId := "C", productName := "Insumo C",
    quantity := 4, price := 0, costPrice := some 3, sku := none }

/-- Final-product item of an ASSEMBLY transaction: 2 units of F
assembled (test data). -/
def exAsmItemF : TxnItemRecord :=
  { id := "i2", transactionId := "a1", productId := "F", productName := "Final F",
    quantity := 2, price := 0, costPrice := some 0, sku := none }

/-- The ASSEMBLY transaction record of the reversal counterexample
(test data). -/
def exAsmTxn : TxnRecord :=
  { id := "a1", type := TxnType.ASSEMBLY, status := Status.COMPLETED,
    clientId := none, clientName := none, supplierId := none,
    invoiceNumber := none, notes := none, totalValue := 0, discountValue := 0, netTotal := 0 }

/-- F with stock 2 (after assembling 2 units; test data). -/
def exFAsm : Product :=
  { id := "F", name := "Final F", currentStock := 2, costPrice := 7, sku := "", supplierId := none,
    bom := some [{ productId := "C", quantity := 2 }] }

/-- C with stock 6 (after 4 units were consumed; test data). -/
def exCAsm : Product :=
  { id := "C", name := "Insumo C", currentStock := 6, costPrice := 3, sku := "", supplierId := none, bom := none }

/-- Store holding the committed ASSEMBLY transaction (test data). -/
def dbAsmDone : DB :=
  { products := [exFAsm, exCAsm], transactions := [exAsmTxn],
    transaction_items := [exAsmItemC, exAsmItemF] }

/-- Purchase line: 5 units of P at cost 20 (test data, scenario D). -/
def exPurItem : PurchaseItem := { productId := "P", quantity := 5, price := 20 }

/-- Purchase line referencing a product id that does not exist
(test data). -/
def exPurMissing : PurchaseItem := { productId := "X", quantity := 5, price := 20 }

theorem commitOps_nil (db : DB) : commitOps db [] = db := rfl

theorem commitOps_cons (db : DB) (op : Op) (rest : List Op) :
    commitOps db (op :: rest) = commitOps (applyOp db op) rest := rfl

theorem applyOp_proj (db : DB) (op : Op) :
    applyOp db op =
      { products := applyOpProducts op db.products,
        transactions := applyOpTxns op db.transactions,
        transaction_items := applyOpItems op db.transaction_items } := by
  cases op <;> rfl

theorem commitOps_products (ops : List Op) (db : DB) :
    (commitOps db ops).products = ops.foldl (fun l op => applyOpProducts op l) db.products := by
  induction ops generalizing db with
  | nil => rfl
  | cons op rest ih =>
    rw [commitOps_cons, ih, List.foldl_cons, applyOp_proj]

theorem commitOps_txns (ops : List Op) (db : DB) :
    (commitOps db ops).transactions = ops.foldl (fun l op => applyOpTxns op l) db.transactions := by
  induction ops generalizing db with
  | nil => rfl
  | cons op rest ih =>
    rw [commitOps_cons, ih, List.foldl_cons, applyOp_proj]

theorem commitOps_items (ops : List Op) (db : DB) :
    (commitOps db ops).transaction_items = ops.foldl (fun l op => applyOpItems op l) db.transaction_items := by
  induction ops generalizing db with
  | nil => rfl
  | cons op rest ih =>
    rw [commitOps_cons, ih, List.foldl_cons, applyOp_proj]

theorem find?_updateFirst_ne (pid qid : String) (f : Product → Product)
    (hf : ∀ p, (f p).id = p.id) (h : ¬ qid = pid) (l : List Product) :
    (updateFirst pid f l).find? (fun p => p.id = qid) = l.find? (fun p => p.id = qid) := by
  induction l with
  | nil => rfl
  | cons p ps ih =>
    have h3 : ¬ (pid = qid) := fun hc => h hc.symm
    by_cases hp : p.id = pid
    · have h1 : ¬ ((f p).id = qid) := by rw [hf p, hp]; intro hc; exact h hc.symm
      have h2 : ¬ (p.id = qid) := by rw [hp]; intro hc; exact h hc.symm
      simp [updateFirst, hp, List.find?_cons, h1, h2, h3]
    · by_cases hq : p.id = qid
      · simp [updateFirst, hp, List.find?_cons, hq, h, h3]
      · simp [updateFirst, hp, List.find?_cons, hq, ih]

theorem find?_updateFirst_self (pid : String) (f : Product → Product)
    (hf : ∀ p, (f p).id = p.id) (l : List Product) :
    (updateFirst pid f l).find? (fun p => p.id = pid) = (l.find? (fun p => p.id = pid)).map f := by
  induction l with
  | nil => rfl
  | cons p ps ih =>
    by_cases hp : p.id = pid
    · have h1 : (f p).id = pid := by rw [hf p, hp]
      simp [updateFirst, hp, List.find?_cons, h1]
    · simp [updateFirst, hp, List.find?_cons, ih]

theorem Op.applyToProduct_id (op : Op) (p : Product) : (op.applyToProduct p).id = p.id := by
  cases op <;> rfl

theorem applyOpProducts_find_untargeted (op : Op) (qid : String) (h : ¬ op.target = some qid)
    (l : List Product) :
    (applyOpProducts op l).find? (fun p => p.id = qid) = l.find? (fun p => p.id = qid) := by
  cases op with
  | updateStockAbs pid s =>
    simp only [applyOpProducts]
    exact find?_updateFirst_ne pid qid (fun p => { p with currentStock := s })
      (fun p => rfl) (fun hc => h (by rw [Op.target, hc])) l
  | updateStockInc pid d =>
    simp only [applyOpProducts]
    exact find?_updateFirst_ne pid qid (fun p => { p with currentStock := p.currentStock + d })
      (fun p => rfl) (fun hc => h (by rw [Op.target, hc])) l
  | updatePurchase pid q c sid =>
    simp only [applyOpProducts]
    exact find?_updateFirst_ne pid qid
      (fun p => { p with currentStock := p.currentStock + q, costPrice := c, supplierId := some sid })
      (fun p => rfl) (fun hc => h (by rw [Op.target, hc])) l
  | setTxn t => rfl
  | setItem x => rfl
  | deleteTxn i => rfl
  | deleteItem i => rfl

theorem applyOpProducts_find_targeted (op : Op) (qid : String) (h : op.target = some qid)
    (l : List Product) :
    (applyOpProducts op l).find? (fun p => p.id = qid) =
      (l.find? (fun p => p.id = qid)).map op.applyToProduct := by
  cases op with
  | updateStockAbs pid s =>
    have hq : pid = qid := Option.some.inj h
    subst hq
    simp only [applyOpProducts, Op.applyToProduct]
    exact find?_updateFirst_self pid (fun p => { p with currentStock := s }) (fun p => rfl) l
  | updateStockInc pid d =>
    have hq : pid = qid := Option.some.inj h
    subst hq
    simp only [applyOpProducts, Op.applyToProduct]
    exact find?_updateFirst_self pid (fun p => { p with currentStock := p.currentStock + d }) (fun p => rfl) l
  | updatePurchase pid q c sid =>
    have hq : pid = qid := Option.some.inj h
    subst hq
    simp only [applyOpProducts, Op.applyToProduct]
    exact find?_updateFirst_self pid
      (fun p => { p with currentStock := p.currentStock + q, costPrice := c, supplierId := some sid })
      (fun p => rfl) l
  | setTxn t => exact absurd h (by simp [Op.target])
  | setItem x => exact absurd h (by simp [Op.target])
  | deleteTxn i => exact absurd h (by simp [Op.target])
  | deleteItem i => exact absurd h (by simp [Op.target])

theorem foldProducts_find_untargeted (ops : List Op) (qid : String)
    (h : ∀ op ∈ ops, ¬ op.target = some qid) (l : List Product) :
    (ops.foldl (fun l op => applyOpProducts op l) l).find? (fun p => p.id = qid) =
      l.find? (fun p => p.id = qid) := by
  induction ops generalizing l with
  | nil => rfl
  | cons op rest ih =>
    rw [List.foldl_cons, ih (fun o ho => h o (List.mem_cons_of_mem op ho)),
      applyOpProducts_find_untargeted op qid (h op (List.mem_cons_self op rest)) l]

theorem foldProducts_find_single (ops : List Op) (qid : String) (op0 : Op)
    (h : ops.filter (fun op => op.target = some qid) = [op0]) (l : List Product) :
    (ops.foldl (fun l op => applyOpProducts op l) l).find? (fun p => p.id = qid) =
      (l.find? (fun p => p.id = qid)).map op0.applyToProduct := by
  induction ops generalizing l with
  | nil => exact absurd h (by simp)
  | cons op rest ih =>
    by_cases hop : op.target = some qid
    · rw [List.filter_cons_of_pos (by simpa using hop)] at h
      have h1 : op = op0 := (List.cons.inj h).1
      have h2 : rest.filter (fun op => op.target = some qid) = [] := (List.cons.inj h).2
      have h3 : ∀ o ∈ rest, ¬ o.target = some qid := by
        intro o ho
        have := List.filter_eq_nil_iff.mp h2 o ho
        simpa using this
      rw [List.foldl_cons, foldProducts_find_untargeted rest qid h3,
        applyOpProducts_find_targeted op qid hop l, h1]
    · rw [List.filter_cons_of_neg (by simpa using hop)] at h
      rw [List.foldl_cons, ih h, applyOpProducts_find_untargeted op qid hop l]

theorem setTxnRec_fresh (t : TxnRecord) (l : List TxnRecord) (h : ∀ u ∈ l, ¬ u.id = t.id) :
    setTxnRec t l = l ++ [t] := by
  induction l with
  | nil => rfl
  | cons u us ih =>
    simp only [setTxnRec, h u (List.mem_cons_self u us), if_false, List.cons_append]
    rw [ih (fun v hv => h v (List.mem_cons_of_mem u hv))]

theorem setItemRec_fresh (x : TxnItemRecord) (l : List TxnItemRecord) (h : ∀ u ∈ l, ¬ u.id = x.id) :
    setItemRec x l = l ++ [x] := by
  induction l with
  | nil => rfl
  | cons u us ih =>
    simp only [setItemRec, h u (List.mem_cons_self u us), if_false, List.cons_append]
    rw [ih (fun v hv => h v (List.mem_cons_of_mem u hv))]

theorem foldItems_append (ops : List Op) (l : List TxnItemRecord)
    (hdel : ∀ i, ¬ Op.deleteItem i ∈ ops)
    (hfresh : ∀ x ∈ newItemsOf ops, ∀ it ∈ l, ¬ it.id = x.id)
    (hnodup : ((newItemsOf ops).map TxnItemRecord.id).Nodup) :
    ops.foldl (fun l op => applyOpItems op l) l = l ++ newItemsOf ops := by
  induction ops generalizing l with
  | nil => simp [newItemsOf]
  | cons op rest ih =>
    cases op with
    | setItem x =>
      have hx : newItemsOf (Op.setItem x :: rest) = x :: newItemsOf rest := by
        simp [newItemsOf]
      rw [hx] at hfresh hnodup
      have hxl : setItemRec x l = l ++ [x] :=
        setItemRec_fresh x l (fun u hu => hfresh x (List.mem_cons_self x _) u hu)
      have hfresh' : ∀ y ∈ newItemsOf rest, ∀ it ∈ l ++ [x], ¬ it.id = y.id := by
        intro y hy it hit
        rcases List.mem_append.mp hit with h1 | h1
        · exact hfresh y (List.mem_cons_of_mem x hy) it h1
        · intro hc
          have hx2 : it = x := by simpa using h1
          have hmem : y.id ∈ (newItemsOf rest).map TxnItemRecord.id :=
            List.mem_map_of_mem TxnItemRecord.id hy
          rw [← hc, hx2] at hmem
          exact (List.nodup_cons.mp hnodup).1 hmem
      have hdel' : ∀ i, ¬ Op.deleteItem i ∈ rest := fun i hc =>
        hdel i (List.mem_cons_of_mem _ hc)
      rw [List.foldl_cons]
      show rest.foldl (fun l op => applyOpItems op l) (setItemRec x l) = l ++ x :: newItemsOf rest
      rw [hxl, ih (l ++ [x]) hdel' hfresh' (List.nodup_cons.mp hnodup).2, List.append_assoc]
      rfl
    | deleteItem i => exact absurd (List.mem_cons_self _ rest) (hdel i)
    | setTxn t =>
      rw [List.foldl_cons]
      exact ih l (fun i hc => hdel i (List.mem_cons_of_mem _ hc)) hfresh hnodup
    | updateStockAbs pid s =>
      rw [List.foldl_cons]
      exact ih l (fun i hc => hdel i (List.mem_cons_of_mem _ hc)) hfresh hnodup
    | updateStockInc pid d =>
      rw [List.foldl_cons]
      exact ih l (fun i hc => hdel i (List.mem_cons_of_mem _ hc)) hfresh hnodup
    | updatePurchase pid q c sid =>
      rw [List.foldl_cons]
      exact ih l (fun i hc => hdel i (List.mem_cons_of_mem _ hc)) hfresh hnodup
    | deleteTxn i =>
      rw [List.foldl_cons]
      exact ih l (fun j hc => hdel j (List.mem_cons_of_mem _ hc)) hfresh hnodup

theorem foldTxns_append (ops : List Op) (l : List TxnRecord)
    (hdel : ∀ i, ¬ Op.deleteTxn i ∈ ops)
    (hfresh : ∀ x ∈ newTxnsOf ops, ∀ t ∈ l, ¬ t.id = x.id)
    (hnodup : ((newTxnsOf ops).map TxnRecord.id).Nodup) :
    ops.foldl (fun l op => applyOpTxns op l) l = l ++ newTxnsOf ops := by
  induction ops generalizing l with
  | nil => simp [newTxnsOf]
  | cons op rest ih =>
    cases op with
    | setTxn x =>
      have hx : newTxnsOf (Op.setTxn x :: rest) = x :: newTxnsOf rest := by
        simp [newTxnsOf]
      rw [hx] at hfresh hnodup
      have hxl : setTxnRec x l = l ++ [x] :=
        setTxnRec_fresh x l (fun u hu => hfresh x (List.mem_cons_self x _) u hu)
      have hfresh' : ∀ y ∈ newTxnsOf rest, ∀ t ∈ l ++ [x], ¬ t.id = y.id := by
        intro y hy t ht
        rcases List.mem_append.mp ht with h1 | h1
        · exact hfresh y (List.mem_cons_of_mem x hy) t h1
        · intro hc
          have hx2 : t = x := by simpa using h1
          have hmem : y.id ∈ (newTxnsOf rest).map TxnRecord.id :=
            List.mem_map_of_mem TxnRecord.id hy
          rw [← hc, hx2] at hmem
          exact (List.nodup_cons.mp hnodup).1 hmem
      have hdel' : ∀ i, ¬ Op.deleteTxn i ∈ rest := fun i hc =>
        hdel i (List.mem_cons_of_mem _ hc)
      rw [List.foldl_cons]
      show rest.foldl (fun l op => applyOpTxns op l) (setTxnRec x l) = l ++ x :: newTxnsOf rest
      rw [hxl, ih (l ++ [x]) hdel' hfresh' (List.nodup_cons.mp hnodup).2, List.append_assoc]
      rfl
    | deleteTxn i => exact absurd (List.mem_cons_self _ rest) (hdel i)
    | setItem t =>
      rw [List.foldl_cons]
      exact ih l (fun i hc => hdel i (List.mem_cons_of_mem _ hc)) hfresh hnodup
    | updateStockAbs pid s =>
      rw [List.foldl_cons]
      exact ih l (fun i hc => hdel i (List.mem_cons_of_mem _ hc)) hfresh hnodup
    | updateStockInc pid d =>
      rw [List.foldl_cons]
      exact ih l (fun i hc => hdel i (List.mem_cons_of_mem _ hc)) hfresh hnodup
    | updatePurchase pid q c sid =>
      rw [List.foldl_cons]
      exact ih l (fun i hc => hdel i (List.mem_cons_of_mem _ hc)) hfresh hnodup
    | deleteItem i =>
      rw [List.foldl_cons]
      exact ih l (fun j hc => hdel j (List.mem_cons_of_mem _ hc)) hfresh hnodup

theorem saleItemOps_mem (db : DB) (txnId : String) (itemIds : List String) (i : Nat)
    (details : List SaleDetail) (op : Op) (h : op ∈ saleItemOps db txnId itemIds i details) :
    (∃ x, op = Op.setItem x) ∨ (∃ pid s, op = Op.updateStockAbs pid s) := by
  induction details generalizing i with
  | nil => simp [saleItemOps] at h
  | cons d rest ih =>
    simp only [saleItemOps, List.mem_cons] at h
    rcases h with h | h | h
    · exact Or.inl ⟨_, h⟩
    · exact Or.inr ⟨_, _, h⟩
    · exact ih (i + 1) h

theorem consOps_mem (c : List ConsumptionOp) (op : Op) (h : op ∈ consOps c) :
    ∃ pid s, op = Op.updateStockAbs pid s := by
  induction c with
  | nil => simp [consOps] at h
  | cons x rest ih =>
    simp only [consOps, List.mem_cons] at h
    rcases h with h | h
    · exact ⟨_, _, h⟩
    · exact ih h

theorem saleItemOps_newItems (db : DB) (txnId : String) (itemIds : List String) (i : Nat)
    (details : List SaleDetail) :
    newItemsOf (saleItemOps db txnId itemIds i details) = saleCreatedItems db txnId itemIds i details := by
  induction details generalizing i with
  | nil => rfl
  | cons d rest ih =>
    simp only [saleItemOps, saleCreatedItems, newItemsOf, List.filterMap_cons]
    rw [← newItemsOf, ih (i + 1)]

theorem consOps_newItems (c : List ConsumptionOp) : newItemsOf (consOps c) = [] := by
  induction c with
  | nil => rfl
  | cons x rest ih =>
    simp only [consOps, newItemsOf, List.filterMap_cons]
    exact ih

theorem newItemsOf_append (a b : List Op) : newItemsOf (a ++ b) = newItemsOf a ++ newItemsOf b :=
  List.filterMap_append a b _

theorem newTxnsOf_append (a b : List Op) : newTxnsOf (a ++ b) = newTxnsOf a ++ newTxnsOf b :=
  List.filterMap_append a b _

theorem newTxnsOf_no_setTxn (ops : List Op) (h : ∀ t, ¬ Op.setTxn t ∈ ops) : newTxnsOf ops = [] := by
  induction ops with
  | nil => rfl
  | cons op rest ih =>
    have hrest : newTxnsOf rest = [] := ih (fun t hc => h t (List.mem_cons_of_mem _ hc))
    cases op with
    | setTxn t => exact absurd (List.mem_cons_self _ rest) (h t)
    | setItem x => simpa [newTxnsOf, List.filterMap_cons] using hrest
    | updateStockAbs pid s => simpa [newTxnsOf, List.filterMap_cons] using hrest
    | updateStockInc pid d => simpa [newTxnsOf, List.filterMap_cons] using hrest
    | updatePurchase pid q c sid => simpa [newTxnsOf, List.filterMap_cons] using hrest
    | deleteTxn i => simpa [newTxnsOf, List.filterMap_cons] using hrest
    | deleteItem i => simpa [newTxnsOf, List.filterMap_cons] using hrest

theorem saleCreatedItems_length (db : DB) (txnId : String) (itemIds : List String) (i : Nat)
    (details : List SaleDetail) :
    (saleCreatedItems db txnId itemIds i details).length = details.length := by
  induction details generalizing i with
  | nil => rfl
  | cons d rest ih => simp [saleCreatedItems, ih (i + 1)]

theorem saleCreatedItems_mem_id (db : DB) (txnId : String) (itemIds : List String) (i : Nat)
    (details : List SaleDetail) (x : TxnItemRecord) (h : x ∈ saleCreatedItems db txnId itemIds i details) :
    ∃ k, k < details.length ∧ x.id = itemIds.getD (i + k) "" := by
  induction details generalizing i with
  | nil => simp [saleCreatedItems] at h
  | cons d rest ih =>
    simp only [saleCreatedItems, List.mem_cons] at h
    rcases h with h | h
    · exact ⟨0, by simp, by rw [h]; rfl⟩
    · obtain ⟨k, hk, hid⟩ := ih (i + 1) h
      exact ⟨k + 1, by simpa using Nat.succ_lt_succ hk, by rw [hid]; congr 1; omega⟩

theorem saleCreatedItems_id_nodup (db : DB) (txnId : String) (itemIds : List String) (i : Nat)
    (details : List SaleDetail)
    (hnodup : ∀ k k', k < k' → k' < details.length → ¬ itemIds.getD (i + k) "" = itemIds.getD (i + k') "") :
    ((saleCreatedItems db txnId itemIds i details).map TxnItemRecord.id).Nodup := by
  induction details generalizing i with
  | nil => simp [saleCreatedItems]
  | cons d rest ih =>
    simp only [saleCreatedItems, List.map_cons, List.nodup_cons]
    constructor
    · intro hc
      obtain ⟨x, hx, hxid⟩ := List.mem_map.mp hc
      obtain ⟨k, hk, hid⟩ := saleCreatedItems_mem_id db txnId itemIds (i + 1) rest x hx
      have hne := hnodup 0 (k + 1) (Nat.succ_pos k) (by simpa using Nat.succ_lt_succ hk)
      apply hne
      have h0 : i + 0 = i := by omega
      have h1 : i + (k + 1) = i + 1 + k := by omega
      rw [h0, h1, ← hid, hxid]
      rfl
    · exact ih (i + 1) (fun k k' hkk hk' => by
        have h1 : i + 1 + k = i + (k + 1) := by omega
        have h2 : i + 1 + k' = i + (k' + 1) := by omega
        rw [h1, h2]
        exact hnodup (k + 1) (k' + 1) (by omega) (by simpa using Nat.succ_lt_succ hk'))

theorem saleCreatedItems_getD (db : DB) (txnId : String) (itemIds : List String) (i : Nat)
    (details : List SaleDetail) (j : Nat) (hj : j < details.length) :
    (saleCreatedItems db txnId itemIds i details).getD j dummyItemRecord =
      saleItemRecord db txnId (itemIds.getD (i + j) "") (details.getD j dummySaleDetail) := by
  induction details generalizing i j with
  | nil => simp at hj
  | cons d rest ih =>
    cases j with
    | zero => rfl
    | succ j' =>
      have hj' : j' < rest.length := by simpa using Nat.lt_of_succ_lt_succ hj
      have h1 : i + (j' + 1) = i + 1 + j' := by omega
      simp only [saleCreatedItems, List.getD_cons_succ, h1]
      exact ih (i + 1) j' hj'

theorem mem_bomGetD_hasBom (p : Product) (x : BomEntry) (h : x ∈ p.bom.getD []) : hasBom p = true := by
  cases hb : p.bom with
  | none => rw [hb] at h; simp at h
  | some l =>
    rw [hb] at h
    simp only [Option.getD_some] at h
    cases l with
    | nil => simp at h
    | cons a as => simp [hasBom, hb]

theorem consSpec_mem (db : DB) (s : Int) (bom : List BomEntry) (c : ConsumptionOp)
    (h : c ∈ consSpec db s bom) :
    ∃ comp ∈ bom, findProduct db comp.productId = some c.snap ∧ c.compId = comp.productId ∧
      c.required = s * comp.quantity ∧ 0 < c.required := by
  obtain ⟨comp, hmem, hc⟩ := List.mem_filterMap.mp h
  refine ⟨comp, hmem, ?_⟩
  cases hf : findProduct db comp.productId with
  | none => rw [hf] at hc; simp at hc
  | some cp =>
    rw [hf] at hc
    simp only at hc
    by_cases hpos : 0 < s * comp.quantity
    · rw [if_pos hpos] at hc
      have hcc := Option.some.inj hc
      refine ⟨?_, ?_, ?_, ?_⟩
      · rw [← hcc]
      · rw [← hcc]
      · rw [← hcc]
      · rw [← hcc]; exact hpos
    · rw [if_neg hpos] at hc
      simp at hc

theorem checkComponents_ok (db : DB) (s : Int) (bom : List BomEntry) (ops : List ConsumptionOp)
    (h : checkComponents db s bom = Except.ok ops) :
    ops = consSpec db s bom ∧
      ∀ comp ∈ bom, ∃ cp, findProduct db comp.productId = some cp ∧ s * comp.quantity ≤ cp.currentStock := by
  induction bom generalizing ops with
  | nil =>
    refine ⟨?_, by simp⟩
    simp only [checkComponents] at h
    simpa [consSpec] using (Except.ok.inj h).symm
  | cons comp rest ih =>
    simp only [checkComponents] at h
    cases hf : findProduct db comp.productId with
    | none =>
      simp only [hf] at h
      exact absurd h (by simp)
    | some cp =>
      simp only [hf] at h
      by_cases hav : cp.currentStock < s * comp.quantity
      · rw [if_pos hav] at h; exact absurd h (by simp)
      · rw [if_neg hav] at h
        cases hrec : checkComponents db s rest with
        | error e => rw [hrec] at h; exact absurd h (by simp [Except.map])
        | ok ops' =>
          rw [hrec] at h
          simp only [Except.map] at h

          have hops := Except.ok.inj h
          obtain ⟨ih1, ih2⟩ := ih ops' hrec
          constructor
          · rw [← hops, ih1]
            simp only [consSpec, List.filterMap_cons, hf]
            by_cases hpos : 0 < s * comp.quantity
            · rw [if_pos hpos, if_pos hpos]
            · rw [if_neg hpos, if_neg hpos]
          · intro c hc
            rcases List.mem_cons.mp hc with h1 | h1
            · exact ⟨cp, by rw [h1]; exact hf, by rw [h1]; omega⟩
            · exact ih2 c h1

theorem checkComponents_err (db : DB) (s : Int) (bom : List BomEntry)
    (h : ∃ comp ∈ bom, findProduct db comp.productId = none ∨
      ∀ cp, findProduct db comp.productId = some cp → cp.currentStock < s * comp.quantity) :
    ∃ e, checkComponents db s bom = Except.error e := by
  induction bom with
  | nil => simp at h
  | cons comp rest ih =>
    obtain ⟨c0, hc0, hbad⟩ := h
    rcases List.mem_cons.mp hc0 with h1 | h1
    · subst h1
      cases hf : findProduct db c0.productId with
      | none =>
        exact ⟨SaleError.componentNotFound c0.productId, by simp [checkComponents, hf]⟩
      | some cp =>
        rcases hbad with hb | hb
        · rw [hf] at hb
          exact absurd hb (by simp)
        · have hav := hb cp hf
          exact ⟨SaleError.insufficientComponent cp.name (s * c0.quantity) cp.currentStock,
            by simp [checkComponents, hf, hav]⟩
    · cases hf : findProduct db comp.productId with
      | none =>
        exact ⟨SaleError.componentNotFound comp.productId, by simp [checkComponents, hf]⟩
      | some cp =>
        by_cases hav : cp.currentStock < s * comp.quantity
        · exact ⟨SaleError.insufficientComponent cp.name (s * comp.quantity) cp.currentStock,
            by simp [checkComponents, hf, hav]⟩
        · obtain ⟨e, he⟩ := ih ⟨c0, h1, hbad⟩
          exact ⟨e, by simp [checkComponents, hf, hav, he, Except.map]⟩

theorem checkItem_ok (db : DB) (item : CartItem) (r : SaleDetail × List ConsumptionOp)
    (h : checkItem db item = Except.ok r) :
    ∃ p, findProduct db item.productId = some p ∧
      r.1 = saleDetailSpec db item ∧ r.2 = saleConsSpec db item ∧
      ∀ c ∈ r.2, findProduct db c.compId = some c.snap ∧ 0 < c.required ∧
        c.required ≤ c.snap.currentStock := by
  simp only [checkItem] at h
  cases hf : findProduct db item.productId with
  | none =>
    simp only [hf] at h
    exact absurd h (by simp)
  | some p =>
    simp only [hf] at h
    refine ⟨p, rfl, ?_⟩
    by_cases hb : hasBom p
    · rw [if_pos hb] at h
      cases hcc : checkComponents db (max 0 (item.quantity - min p.currentStock item.quantity)) (p.bom.getD []) with
      | error e =>
        rw [hcc] at h
        exact absurd h (by simp [Except.map])
      | ok ops =>
        rw [hcc] at h
        simp only [Except.map] at h
        have hr := (Except.ok.inj h).symm
        obtain ⟨hspec, hbound⟩ := checkComponents_ok db _ _ ops hcc
        have hshort : max 0 (item.quantity - min p.currentStock item.quantity) = shortfallOf p item := by
          simp [shortfallOf, fromStockOf]
        refine ⟨by rw [hr]; simp [saleDetailSpec, hf, fromStockOf], ?_, ?_⟩
        · rw [hr]
          simp only [saleConsSpec, hf, if_pos hb]
          rw [hspec, hshort]
        · intro c hc
          rw [hr] at hc
          simp only at hc
          obtain ⟨comp, hcm, hcf, hcid, hcreq, hcpos⟩ := consSpec_mem db _ _ c (hspec ▸ hc)
          obtain ⟨cp, hcp1, hcp2⟩ := hbound comp hcm
          have hsnap : cp = c.snap := Option.some.inj (hcp1 ▸ hcf)
          refine ⟨by rw [hcid]; exact hcf, hcpos, ?_⟩
          rw [hcreq, ← hsnap]
          exact hcp2
    · rw [if_neg hb] at h
      simp only [Except.map] at h
      have hr := (Except.ok.inj h).symm
      refine ⟨by rw [hr]; simp [saleDetailSpec, hf, fromStockOf], ?_, ?_⟩
      · rw [hr]
        simp only [saleConsSpec, hf]
        rw [if_neg hb]
      · intro c hc
        rw [hr] at hc
        simp at hc

theorem checkItem_err (db : DB) (item : CartItem)
    (h : findProduct db item.productId = none ∨
      ∃ p, findProduct db item.productId = some p ∧
        ∃ comp ∈ p.bom.getD [], (findProduct db comp.productId = none ∨
          ∀ cp, findProduct db comp.productId = some cp →
            cp.currentStock < shortfallOf p item * comp.quantity)) :
    ∃ e, checkItem db item = Except.error e := by
  rcases h with h | ⟨p, hp, hcomp⟩
  · exact ⟨SaleError.productNotFound item.productName, by simp [checkItem, h]⟩
  · obtain ⟨comp0, hcm0, hbad0⟩ := hcomp
    have hb : hasBom p = true := mem_bomGetD_hasBom p comp0 hcm0
    have hshort : max 0 (item.quantity - min p.currentStock item.quantity) = shortfallOf p item := by
      simp [shortfallOf, fromStockOf]
    obtain ⟨e, he⟩ := checkComponents_err db (shortfallOf p item) (p.bom.getD []) ⟨comp0, hcm0, hbad0⟩
    refine ⟨e, ?_⟩
    simp only [checkItem, hp, if_pos hb]
    rw [hshort, he]
    rfl

theorem checkItem_noBom (db : DB) (item : CartItem) (p : Product)
    (hp : findProduct db item.productId = some p) (hb : hasBom p = false) :
    checkItem db item = Except.ok (saleDetailSpec db item, []) := by
  simp only [checkItem, hp, hb]
  simp [saleDetailSpec, hp, fromStockOf, Except.map]

theorem saleReadPhase_ok (db : DB) (cart : List CartItem)
    (results : List (SaleDetail × List ConsumptionOp))
    (h : saleReadPhase db cart = Except.ok results) :
    results = cart.map (fun c => (saleDetailSpec db c, saleConsSpec db c)) ∧
      ∀ c ∈ cart, ∃ p, findProduct db c.productId = some p ∧
        ∀ x ∈ saleConsSpec db c, findProduct db x.compId = some x.snap ∧ 0 < x.required ∧
          x.required ≤ x.snap.currentStock := by
  induction cart generalizing results with
  | nil =>
    simp only [saleReadPhase] at h
    exact ⟨by simpa using (Except.ok.inj h).symm, by simp⟩
  | cons item rest ih =>
    simp only [saleReadPhase] at h
    cases hc : checkItem db item with
    | error e => rw [hc] at h; exact absurd h (by simp)
    | ok r =>
      rw [hc] at h
      cases hr : saleReadPhase db rest with
      | error e => rw [hr] at h; exact absurd h (by simp)
      | ok rs =>
        rw [hr] at h
        have hres := (Except.ok.inj h).symm
        obtain ⟨ih1, ih2⟩ := ih rs hr
        obtain ⟨p, hp, h1, h2, h3⟩ := checkItem_ok db item r hc
        constructor
        · rw [hres, List.map_cons, ← ih1]
          have : r = (saleDetailSpec db item, saleConsSpec db item) := by
            cases r
            simp only at h1 h2
            rw [h1, h2]
          rw [this]
        · intro c hcm
          rcases List.mem_cons.mp hcm with hcm | hcm
          · subst hcm
            exact ⟨p, hp, fun x hx => h3 x (h2 ▸ hx)⟩
          · exact ih2 c hcm

theorem saleReadPhase_err (db : DB) (cart : List CartItem)
    (h : ∃ c ∈ cart, ∃ e, checkItem db c = Except.error e) :
    ∃ e, saleReadPhase db cart = Except.error e := by
  induction cart with
  | nil => simp at h
  | cons item rest ih =>
    simp only [saleReadPhase]
    cases hc : checkItem db item with
    | error e => exact ⟨e, rfl⟩
    | ok r =>
      obtain ⟨c0, hc0, e0, he0⟩ := h
      rcases List.mem_cons.mp hc0 with h1 | h1
      · subst h1
        rw [hc] at he0
        exact absurd he0 (by simp)
      · obtain ⟨e, he⟩ := ih ⟨c0, h1, e0, he0⟩
        rw [he]
        exact ⟨e, rfl⟩

theorem saleReadPhase_all_ok (db : DB) (cart : List CartItem)
    (h : ∀ c ∈ cart, ∃ r, checkItem db c = Except.ok r) :
    ∃ rs, saleReadPhase db cart = Except.ok rs := by
  induction cart with
  | nil => exact ⟨[], rfl⟩
  | cons item rest ih =>
    obtain ⟨r, hr⟩ := h item (List.mem_cons_self item rest)
    obtain ⟨rs, hrs⟩ := ih (fun c hc => h c (List.mem_cons_of_mem item hc))
    refine ⟨r :: rs, ?_⟩
    simp only [saleReadPhase, hr, hrs]

theorem flatMap_map_snd (cart : List CartItem)
    (f : CartItem → SaleDetail × List ConsumptionOp) :
    (cart.map f).flatMap Prod.snd = cart.flatMap (fun c => (f c).2) := by
  induction cart with
  | nil => rfl
  | cons c rest ih => simp [List.flatMap_cons, ih]

theorem map_fst_pair (cart : List CartItem)
    (a : CartItem → SaleDetail) (b : CartItem → List ConsumptionOp) :
    (cart.map (fun c => (a c, b c))).map Prod.fst = cart.map a := by
  simp

theorem onFinalizeSale_ok_elim (db : DB) (txnId : String) (itemIds : List String)
    (clientId clientName : String) (st : Status) (discount : Rat) (cart : List CartItem) (db' : DB)
    (h : onFinalizeSale db txnId itemIds clientId clientName st discount cart = Except.ok db') :
    (∀ c ∈ cart, ∃ p, findProduct db c.productId = some p ∧
      ∀ x ∈ saleConsSpec db c, findProduct db x.compId = some x.snap ∧ 0 < x.required ∧
        x.required ≤ x.snap.currentStock) ∧
    db' = commitOps db
      (Op.setTxn (saleTxnRecord txnId clientId clientName st discount cart)
        :: (saleItemOps db txnId itemIds 0 (cart.map (saleDetailSpec db))
            ++ consOps (cart.flatMap (saleConsSpec db)))) := by
  simp only [onFinalizeSale, saleOps] at h
  cases hr : saleReadPhase db cart with
  | error e =>
    rw [hr] at h
    exact absurd h (by simp [Except.map])
  | ok results =>
    rw [hr] at h
    simp only [Except.map] at h
    obtain ⟨hres, hfacts⟩ := saleReadPhase_ok db cart results hr
    refine ⟨hfacts, ?_⟩
    have hdb := (Except.ok.inj h).symm
    rw [hdb, hres]
    rw [map_fst_pair cart (saleDetailSpec db) (saleConsSpec db),
      flatMap_map_snd cart (fun c => (saleDetailSpec db c, saleConsSpec db c))]

theorem saleDetailSpec_productId (db : DB) (c : CartItem) :
    (saleDetailSpec db c).item.productId = c.productId := by
  simp only [saleDetailSpec]
  cases findProduct db c.productId <;> rfl

theorem filter_key_nil {α : Type} (key : α → String) (q : String) (l : List α)
    (h : ∀ y ∈ l, ¬ key y = q) : l.filter (fun y => key y = q) = [] :=
  List.filter_eq_nil_iff.mpr (fun y hy => by simpa using h y hy)

theorem filter_key_single {α : Type} (key : α → String) (l : List α) (x : α)
    (hx : x ∈ l) (hnd : (l.map key).Nodup) : l.filter (fun y => key y = key x) = [x] := by
  induction l with
  | nil => simp at hx
  | cons a rest ih =>
    have hnd' : key a ∉ rest.map key ∧ (rest.map key).Nodup := by
      rw [List.map_cons] at hnd
      exact List.nodup_cons.mp hnd
    by_cases hk : key a = key x
    · have hax : a = x := by
        rcases List.mem_cons.mp hx with h1 | h1
        · exact h1.symm
        · exact absurd (hk ▸ List.mem_map_of_mem key h1) hnd'.1
      subst hax
      have hrest : rest.filter (fun y => key y = key a) = [] := by
        apply filter_key_nil
        intro y hy hc
        exact hnd'.1 (hc ▸ List.mem_map_of_mem key hy)
      simp [List.filter_cons, hk, hrest]
    · have hx' : x ∈ rest := by
        rcases List.mem_cons.mp hx with h1 | h1
        · exact absurd (congrArg key h1.symm) hk
        · exact h1
      simp [List.filter_cons, hk, ih hx' hnd'.2]

theorem saleItemOps_filter_target (db : DB) (txnId : String) (itemIds : List String) (i : Nat)
    (details : List SaleDetail) (qid : String) :
    (saleItemOps db txnId itemIds i details).filter (fun op => op.target = some qid) =
      (details.filter (fun d => d.item.productId = qid)).map
        (fun d => Op.updateStockAbs d.item.productId (d.snap.currentStock - d.item.availableStock)) := by
  induction details generalizing i with
  | nil => rfl
  | cons d rest ih =>
    by_cases hd : d.item.productId = qid
    · simp only [saleItemOps, List.filter_cons]
      have h1 : (decide ((Op.setItem (saleItemRecord db txnId (itemIds.getD i "") d)).target = some qid)) = false := by
        simp [Op.target]
      have h2 : (decide ((Op.updateStockAbs d.item.productId (d.snap.currentStock - d.item.availableStock)).target = some qid)) = true := by
        simp [Op.target, hd]
      rw [h1, h2]
      simp only [List.filter_cons] at ih ⊢
      rw [ih (i + 1)]
      simp [hd]
    · simp only [saleItemOps, List.filter_cons]
      have h1 : (decide ((Op.setItem (saleItemRecord db txnId (itemIds.getD i "") d)).target = some qid)) = false := by
        simp [Op.target]
      have h2 : (decide ((Op.updateStockAbs d.item.productId (d.snap.currentStock - d.item.availableStock)).target = some qid)) = false := by
        simp [Op.target, hd]
      rw [h1, h2]
      rw [ih (i + 1)]
      simp [hd]

theorem consOps_filter_target (c : List ConsumptionOp) (qid : String) :
    (consOps c).filter (fun op => op.target = some qid) =
      (c.filter (fun x => x.compId = qid)).map
        (fun x => Op.updateStockAbs x.compId (x.snap.currentStock - x.required)) := by
  induction c with
  | nil => rfl
  | cons x rest ih =>
    by_cases hx : x.compId = qid
    · simp only [consOps, List.filter_cons]
      have h2 : (decide ((Op.updateStockAbs x.compId (x.snap.currentStock - x.required)).target = some qid)) = true := by
        simp [Op.target, hx]
      rw [h2, ih]
      simp [hx]
    · simp only [consOps, List.filter_cons]
      have h2 : (decide ((Op.updateStockAbs x.compId (x.snap.currentStock - x.required)).target = some qid)) = false := by
        simp [Op.target, hx]
      rw [h2, ih]
      simp [hx]

theorem filter_map_detail (db : DB) (cart : List CartItem) (qid : String) :
    (cart.map (saleDetailSpec db)).filter (fun d => d.item.productId = qid) =
      (cart.filter (fun c => c.productId = qid)).map (saleDetailSpec db) := by
  induction cart with
  | nil => rfl
  | cons c rest ih =>
    simp only [List.map_cons, List.filter_cons, saleDetailSpec_productId db c]
    by_cases hc : c.productId = qid
    · simp [hc, ih]
    · simp [hc, ih]

theorem cons_map_compId (db : DB) (cart : List CartItem) :
    ((cart.flatMap (saleConsSpec db)).map ConsumptionOp.compId) = cart.flatMap (lineConsIds db) := by
  induction cart with
  | nil => rfl
  | cons c rest ih => simp only [List.flatMap_cons, List.map_append, ih, lineConsIds]

theorem mem_cons_compId (db : DB) (cart : List CartItem) (y : ConsumptionOp)
    (h : y ∈ cart.flatMap (saleConsSpec db)) : y.compId ∈ cart.flatMap (lineConsIds db) := by
  rw [← cons_map_compId db cart]
  exact List.mem_map_of_mem ConsumptionOp.compId h

theorem sale_ops_filter (db : DB) (txnId : String) (itemIds : List String)
    (clientId clientName : String) (st : Status) (discount : Rat) (cart : List CartItem)
    (qid : String) :
    ((Op.setTxn (saleTxnRecord txnId clientId clientName st discount cart)
        :: (saleItemOps db txnId itemIds 0 (cart.map (saleDetailSpec db))
            ++ consOps (cart.flatMap (saleConsSpec db)))).filter
      (fun op => op.target = some qid)) =
    ((cart.map (saleDetailSpec db)).filter (fun d => d.item.productId = qid)).map
        (fun d => Op.updateStockAbs d.item.productId (d.snap.currentStock - d.item.availableStock))
      ++ ((cart.flatMap (saleConsSpec db)).filter (fun x => x.compId = qid)).map
        (fun x => Op.updateStockAbs x.compId (x.snap.currentStock - x.required)) := by
  rw [List.filter_cons]
  have h0 : (decide ((Op.setTxn (saleTxnRecord txnId clientId clientName st discount cart)).target = some qid)) = false := by
    simp [Op.target]
  rw [h0, List.filter_append, saleItemOps_filter_target, consOps_filter_target]
  simp

theorem sale_stock_char (db : DB) (txnId : String) (itemIds : List String)
    (clientId clientName : String) (st : Status) (discount : Rat) (cart : List CartItem) (db' : DB)
    (hok : onFinalizeSale db txnId itemIds clientId clientName st discount cart = Except.ok db')
    (hnd : ((cart.map CartItem.productId) ++ cart.flatMap (lineConsIds db)).Nodup) :
    (∀ item ∈ cart, ∀ p, findProduct db item.productId = some p →
        getStock db' item.productId = some (p.currentStock - fromStockOf p item)) ∧
    (∀ item ∈ cart, ∀ p, findProduct db item.productId = some p → hasBom p = true →
        ∀ comp ∈ p.bom.getD [], 0 < shortfallOf p item * comp.quantity →
          ∀ cp, findProduct db comp.productId = some cp →
            getStock db' comp.productId = some (cp.currentStock - shortfallOf p item * comp.quantity)) := by
  obtain ⟨hfacts, hdb⟩ := onFinalizeSale_ok_elim db txnId itemIds clientId clientName st discount cart db' hok
  have hnd1 : (cart.map CartItem.productId).Nodup := (List.nodup_append.mp hnd).1
  have hnd2 : (cart.flatMap (lineConsIds db)).Nodup := (List.nodup_append.mp hnd).2.1
  have hdisj := (List.nodup_append.mp hnd).2.2
  constructor
  · intro item hitem p hp
    have hfilter1 : (cart.map (saleDetailSpec db)).filter (fun d => d.item.productId = item.productId) =
        [saleDetailSpec db item] := by
      rw [filter_map_detail db cart item.productId]
      have : cart.filter (fun c => c.productId = item.productId) = [item] :=
        filter_key_single CartItem.productId cart item hitem hnd1
      rw [this]
      rfl
    have hfilter2 : (cart.flatMap (saleConsSpec db)).filter (fun x => x.compId = item.productId) = [] := by
      apply filter_key_nil
      intro y hy hc
      exact hdisj (List.mem_map_of_mem CartItem.productId hitem) (hc ▸ mem_cons_compId db cart y hy)
    have hsingle : ((Op.setTxn (saleTxnRecord txnId clientId clientName st discount cart)
        :: (saleItemOps db txnId itemIds 0 (cart.map (saleDetailSpec db))
            ++ consOps (cart.flatMap (saleConsSpec db)))).filter
      (fun op => op.target = some item.productId)) =
        [Op.updateStockAbs item.productId (p.currentStock - fromStockOf p item)] := by
      rw [sale_ops_filter, hfilter1, hfilter2]
      simp only [List.map_cons, List.map_nil, List.append_nil]
      have : saleDetailSpec db item =
          { snap := p, item := { item with availableStock := fromStockOf p item } } := by
        simp [saleDetailSpec, hp]
      rw [this]
    rw [hdb]
    unfold getStock findProduct
    rw [commitOps_products]
    rw [foldProducts_find_single _ item.productId _ hsingle]
    unfold findProduct at hp
    rw [hp]
    rfl
  · intro item hitem p hp hbom comp hcomp hpos cp hcp
    have hc0 : ({ compId := comp.productId, snap := cp, required := shortfallOf p item * comp.quantity } : ConsumptionOp)
        ∈ saleConsSpec db item := by
      simp only [saleConsSpec, hp, if_pos hbom]
      apply List.mem_filterMap.mpr
      exact ⟨comp, hcomp, by rw [hcp]; simp [hpos]⟩
    have hc0' : ({ compId := comp.productId, snap := cp, required := shortfallOf p item * comp.quantity } : ConsumptionOp)
        ∈ cart.flatMap (saleConsSpec db) :=
      List.mem_flatMap.mpr ⟨item, hitem, hc0⟩
    have hqid : comp.productId ∈ cart.flatMap (lineConsIds db) :=
      mem_cons_compId db cart _ hc0'
    have hfilter1 : (cart.map (saleDetailSpec db)).filter (fun d => d.item.productId = comp.productId) = [] := by
      rw [filter_map_detail db cart comp.productId]
      have : cart.filter (fun c => c.productId = comp.productId) = [] := by
        apply filter_key_nil
        intro y hy hc
        exact hdisj (List.mem_map_of_mem CartItem.productId hy) (hc ▸ hqid)
      rw [this]
      rfl
    have hnd3 : ((cart.flatMap (saleConsSpec db)).map ConsumptionOp.compId).Nodup := by
      rw [cons_map_compId db cart]
      exact hnd2
    have hfilter2 : (cart.flatMap (saleConsSpec db)).filter (fun x => x.compId = comp.productId) =
        [{ compId := comp.productId, snap := cp, required := shortfallOf p item * comp.quantity }] :=
      filter_key_single ConsumptionOp.compId (cart.flatMap (saleConsSpec db)) _ hc0' hnd3
    have hsingle : ((Op.setTxn (saleTxnRecord txnId clientId clientName st discount cart)
        :: (saleItemOps db txnId itemIds 0 (cart.map (saleDetailSpec db))
            ++ consOps (cart.flatMap (saleConsSpec db)))).filter
      (fun op => op.target = some comp.productId)) =
        [Op.updateStockAbs comp.productId (cp.currentStock - shortfallOf p item * comp.quantity)] := by
      rw [sale_ops_filter, hfilter1, hfilter2]
      rfl
    rw [hdb]
    unfold getStock findProduct
    rw [commitOps_products]
    rw [foldProducts_find_single _ comp.productId _ hsingle]
    unfold findProduct at hcp
    rw [hcp]
    rfl

theorem mem_updateFirst (pid : String) (f : Product → Product) (l : List Product) (q : Product)
    (h : q ∈ updateFirst pid f l) : q ∈ l ∨ ∃ p, p ∈ l ∧ q = f p := by
  induction l with
  | nil => simp [updateFirst] at h
  | cons p ps ih =>
    simp only [updateFirst] at h
    by_cases hp : p.id = pid
    · rw [if_pos hp] at h
      rcases List.mem_cons.mp h with h1 | h1
      · exact Or.inr ⟨p, List.mem_cons_self p ps, h1⟩
      · exact Or.inl (List.mem_cons_of_mem p h1)
    · rw [if_neg hp] at h
      rcases List.mem_cons.mp h with h1 | h1
      · exact Or.inl (h1 ▸ List.mem_cons_self p ps)
      · rcases ih h1 with h2 | ⟨p', hp', hq⟩
        · exact Or.inl (List.mem_cons_of_mem p h2)
        · exact Or.inr ⟨p', List.mem_cons_of_mem p hp', hq⟩

theorem applyOpProducts_nonneg (op : Op) (l : List Product) (hs : opSafe op)
    (h : ∀ p ∈ l, 0 ≤ p.currentStock) : ∀ p ∈ applyOpProducts op l, 0 ≤ p.currentStock := by
  cases op with
  | updateStockAbs pid s =>
    intro q hq
    rcases mem_updateFirst pid _ l q hq with h1 | ⟨p, hp, hq'⟩
    · exact h q h1
    · rw [hq']
      exact hs
  | updateStockInc pid d => exact absurd hs (by simp [opSafe])
  | updatePurchase pid qy c sid => exact absurd hs (by simp [opSafe])
  | setTxn t => exact h
  | setItem x => exact h
  | deleteTxn i => exact h
  | deleteItem i => exact h

theorem foldProducts_nonneg (ops : List Op) (l : List Product)
    (hsafe : ∀ op ∈ ops, opSafe op) (h : ∀ p ∈ l, 0 ≤ p.currentStock) :
    ∀ p ∈ ops.foldl (fun l op => applyOpProducts op l) l, 0 ≤ p.currentStock := by
  induction ops generalizing l with
  | nil => exact h
  | cons op rest ih =>
    rw [List.foldl_cons]
    exact ih _ (fun o ho => hsafe o (List.mem_cons_of_mem op ho))
      (applyOpProducts_nonneg op l (hsafe op (List.mem_cons_self op rest)) h)

theorem applyOpTxns_id (op : Op) (l : List TxnRecord)
    (h1 : ∀ t, ¬ op = Op.setTxn t) (h2 : ∀ i, ¬ op = Op.deleteTxn i) :
    applyOpTxns op l = l := by
  cases op with
  | setTxn t => exact absurd rfl (h1 t)
  | deleteTxn i => exact absurd rfl (h2 i)
  | setItem x => rfl
  | updateStockAbs pid s => rfl
  | updateStockInc pid d => rfl
  | updatePurchase pid q c sid => rfl
  | deleteItem i => rfl

theorem foldTxns_id (ops : List Op) (l : List TxnRecord)
    (h : ∀ op ∈ ops, (∀ t, ¬ op = Op.setTxn t) ∧ (∀ i, ¬ op = Op.deleteTxn i)) :
    ops.foldl (fun l op => applyOpTxns op l) l = l := by
  induction ops generalizing l with
  | nil => rfl
  | cons op rest ih =>
    rw [List.foldl_cons,
      applyOpTxns_id op l (h op (List.mem_cons_self op rest)).1 (h op (List.mem_cons_self op rest)).2]
    exact ih l (fun o ho => h o (List.mem_cons_of_mem op ho))

theorem applyOpItems_id (op : Op) (l : List TxnItemRecord)
    (h1 : ∀ x, ¬ op = Op.setItem x) (h2 : ∀ i, ¬ op = Op.deleteItem i) :
    applyOpItems op l = l := by
  cases op with
  | setItem x => exact absurd rfl (h1 x)
  | deleteItem i => exact absurd rfl (h2 i)
  | setTxn t => rfl
  | updateStockAbs pid s => rfl
  | updateStockInc pid d => rfl
  | updatePurchase pid q c sid => rfl
  | deleteTxn i => rfl

theorem foldItems_id (ops : List Op) (l : List TxnItemRecord)
    (h : ∀ op ∈ ops, (∀ x, ¬ op = Op.setItem x) ∧ (∀ i, ¬ op = Op.deleteItem i)) :
    ops.foldl (fun l op => applyOpItems op l) l = l := by
  induction ops generalizing l with
  | nil => rfl
  | cons op rest ih =>
    rw [List.foldl_cons,
      applyOpItems_id op l (h op (List.mem_cons_self op rest)).1 (h op (List.mem_cons_self op rest)).2]
    exact ih l (fun o ho => h o (List.mem_cons_of_mem op ho))

theorem foldItems_deletes (xs : List TxnItemRecord) (l : List TxnItemRecord) :
    (revertDeleteOps xs).foldl (fun l op => applyOpItems op l) l =
      l.filter (fun it => ¬ xs.any (fun x => x.id = it.id)) := by
  induction xs generalizing l with
  | nil => simp [revertDeleteOps]
  | cons x rest ih =>
    simp only [revertDeleteOps, List.foldl_cons]
    rw [ih]
    show (l.filter (fun t => ¬ t.id = x.id)).filter (fun it => ¬ rest.any (fun y => y.id = it.id)) =
      l.filter (fun it => ¬ (x :: rest).any (fun y => y.id = it.id))
    rw [List.filter_filter]
    apply List.filter_congr
    intro it hit
    by_cases h1 : x.id = it.id
    · simp [h1, List.any_cons]
    · by_cases h2 : rest.any (fun y => y.id = it.id)
      · simp [h1, h2, List.any_cons]
      · simp [h1, h2, List.any_cons]
        exact fun hc => h1 hc.symm

theorem foldProducts_find_incs (ops : List Op) (qid : String)
    (h : ∀ op ∈ ops, op.target = some qid → ∃ d, op = Op.updateStockInc qid d) (l : List Product) :
    (ops.foldl (fun l op => applyOpProducts op l) l).find? (fun p => p.id = qid) =
      (l.find? (fun p => p.id = qid)).map
        (fun p => { p with currentStock :=
          p.currentStock + ((ops.filter (fun op => op.target = some qid)).map opDelta).sum }) := by
  induction ops generalizing l with
  | nil =>
    cases hf : l.find? (fun p => p.id = qid) with
    | none => rw [List.foldl_nil, hf]; rfl
    | some p => rw [List.foldl_nil, hf]; simp
  | cons op rest ih =>
    by_cases hop : op.target = some qid
    · obtain ⟨d, hd⟩ := h op (List.mem_cons_self op rest) hop
      subst hd
      rw [List.foldl_cons, List.filter_cons_of_pos (by simpa using hop)]
      rw [ih (fun o ho ht => h o (List.mem_cons_of_mem _ ho) ht)]
      rw [applyOpProducts_find_targeted _ qid hop l]
      cases hf : l.find? (fun p => p.id = qid) with
      | none => simp
      | some p =>
        simp [Op.applyToProduct, opDelta, Int.add_assoc]
    · rw [List.foldl_cons, List.filter_cons_of_neg (by simpa using hop)]
      rw [ih (fun o ho ht => h o (List.mem_cons_of_mem _ ho) ht)]
      rw [applyOpProducts_find_untargeted op qid hop l]

theorem nodup_map_inj {α β : Type} (f : α → β) (l : List α) (h : (l.map f).Nodup) :
    ∀ x ∈ l, ∀ y ∈ l, f x = f y → x = y := by
  induction l with
  | nil => simp
  | cons a rest ih =>
    rw [List.map_cons] at h
    have h' := List.nodup_cons.mp h
    intro x hx y hy hf
    rcases List.mem_cons.mp hx with hx1 | hx1 <;> rcases List.mem_cons.mp hy with hy1 | hy1
    · rw [hx1, hy1]
    · subst hx1
      exact absurd (hf ▸ List.mem_map_of_mem f hy1) h'.1
    · subst hy1
      exact absurd (hf ▸ List.mem_map_of_mem f hx1) h'.1
    · exact ih h'.2 x hx1 y hy1 hf

theorem find?_self_of_nodup (l : List Product) (p : Product)
    (hnd : (l.map Product.id).Nodup) (hp : p ∈ l) :
    l.find? (fun q => q.id = p.id) = some p := by
  induction l with
  | nil => simp at hp
  | cons a rest ih =>
    rw [List.map_cons] at hnd
    have h' := List.nodup_cons.mp hnd
    by_cases ha : a.id = p.id
    · have hap : a = p := by
        rcases List.mem_cons.mp hp with h1 | h1
        · exact h1.symm
        · exact absurd (ha ▸ List.mem_map_of_mem Product.id h1) h'.1
      rw [List.find?_cons_of_pos _ (by simpa using ha), hap]
    · have hp' : p ∈ rest := by
        rcases List.mem_cons.mp hp with h1 | h1
        · exact absurd (congrArg Product.id h1.symm) ha
        · exact h1
      rw [List.find?_cons_of_neg _ (by simpa using ha)]
      exact ih h'.2 hp'

theorem revertStockOps_mem (db : DB) (txnType : TxnType) (xs : List TxnItemRecord) (op : Op)
    (h : op ∈ revertStockOps db txnType xs) :
    ∃ it ∈ xs, op = Op.updateStockInc it.productId
      (if txnType = TxnType.IN then it.quantity else -it.quantity) := by
  induction xs with
  | nil => simp [revertStockOps] at h
  | cons it rest ih =>
    simp only [revertStockOps] at h
    by_cases hc : db.products.any (fun p => p.id = it.productId)
    · rw [if_pos hc] at h
      rcases List.mem_cons.mp h with h1 | h1
      · exact ⟨it, List.mem_cons_self it rest, h1⟩
      · obtain ⟨it', hit', hop⟩ := ih h1
        exact ⟨it', List.mem_cons_of_mem it hit', hop⟩
    · rw [if_neg hc] at h
      obtain ⟨it', hit', hop⟩ := ih h
      exact ⟨it', List.mem_cons_of_mem it hit', hop⟩

theorem revertDeleteOps_mem (xs : List TxnItemRecord) (op : Op) (h : op ∈ revertDeleteOps xs) :
    ∃ it ∈ xs, op = Op.deleteItem it.id := by
  induction xs with
  | nil => simp [revertDeleteOps] at h
  | cons it rest ih =>
    simp only [revertDeleteOps, List.mem_cons] at h
    rcases h with h | h
    · exact ⟨it, List.mem_cons_self it rest, h⟩
    · obtain ⟨it', hit', hop⟩ := ih h
      exact ⟨it', List.mem_cons_of_mem it hit', hop⟩

theorem revertStockOps_filter (db : DB) (txnType : TxnType) (xs : List TxnItemRecord) (qid : String)
    (hq : db.products.any (fun p => p.id = qid) = true) :
    (revertStockOps db txnType xs).filter (fun op => op.target = some qid) =
      (xs.filter (fun it => it.productId = qid)).map
        (fun it => Op.updateStockInc it.productId
          (if txnType = TxnType.IN then it.quantity else -it.quantity)) := by
  induction xs with
  | nil => rfl
  | cons it rest ih =>
    simp only [revertStockOps]
    by_cases hc : db.products.any (fun p => p.id = it.productId)
    · rw [if_pos hc]
      by_cases hid : it.productId = qid
      · rw [List.filter_cons_of_pos (by simp [Op.target, hid]),
          List.filter_cons_of_pos (by simpa using hid), List.map_cons, ih]
      · rw [List.filter_cons_of_neg (by simp [Op.target, hid]),
          List.filter_cons_of_neg (by simpa using hid), ih]
    · rw [if_neg hc]
      have hid : ¬ it.productId = qid := fun hcc => hc (hcc ▸ hq)
      rw [List.filter_cons_of_neg (by simpa using hid), ih]

theorem handleRevert_char (db : DB) (txn : TxnRecord)
    (hst : ¬ txn.status = Status.CANCELLED)
    (hndI : (db.transaction_items.map TxnItemRecord.id).Nodup)
    (hndP : (db.products.map Product.id).Nodup) :
    (handleRevert db txn).transactions = db.transactions.filter (fun t => ¬ t.id = txn.id) ∧
    (handleRevert db txn).transaction_items =
      db.transaction_items.filter (fun it => ¬ it.transactionId = txn.id) ∧
    ∀ p ∈ db.products,
      getStock (handleRevert db txn) p.id =
        some (p.currentStock +
          (((db.transaction_items.filter (fun it => it.transactionId = txn.id)).filter
              (fun it => it.productId = p.id)).map
            (fun it => if txn.type = TxnType.IN then it.quantity else -it.quantity)).sum) := by
  have hrev : handleRevert db txn = commitOps db
      ((revertStockOps db txn.type (db.transaction_items.filter (fun it => it.transactionId = txn.id))
        ++ revertDeleteOps (db.transaction_items.filter (fun it => it.transactionId = txn.id)))
        ++ [Op.deleteTxn txn.id]) := by
    simp only [handleRevert, if_neg hst]
  set fresh := db.transaction_items.filter (fun it => it.transactionId = txn.id) with hfresh
  refine ⟨?_, ?_, ?_⟩
  · rw [hrev, commitOps_txns, List.foldl_append, List.foldl_append]
    have hA : (revertStockOps db txn.type fresh).foldl (fun l op => applyOpTxns op l) db.transactions
        = db.transactions := by
      apply foldTxns_id
      intro op hop
      obtain ⟨it, hit, hopx⟩ := revertStockOps_mem db txn.type fresh op hop
      exact ⟨fun t hc => by rw [hopx] at hc; exact Op.noConfusion hc,
        fun i hc => by rw [hopx] at hc; exact Op.noConfusion hc⟩
    have hB : (revertDeleteOps fresh).foldl (fun l op => applyOpTxns op l) db.transactions
        = db.transactions := by
      apply foldTxns_id
      intro op hop
      obtain ⟨it, hit, hopx⟩ := revertDeleteOps_mem fresh op hop
      exact ⟨fun t hc => by rw [hopx] at hc; exact Op.noConfusion hc,
        fun i hc => by rw [hopx] at hc; exact Op.noConfusion hc⟩
    rw [hA, hB]
    rfl
  · rw [hrev, commitOps_items, List.foldl_append, List.foldl_append]
    have hA : (revertStockOps db txn.type fresh).foldl (fun l op => applyOpItems op l) db.transaction_items
        = db.transaction_items := by
      apply foldItems_id
      intro op hop
      obtain ⟨it, hit, hopx⟩ := revertStockOps_mem db txn.type fresh op hop
      exact ⟨fun t hc => by rw [hopx] at hc; exact Op.noConfusion hc,
        fun i hc => by rw [hopx] at hc; exact Op.noConfusion hc⟩
    rw [hA, foldItems_deletes]
    show (db.transaction_items.filter (fun it => ¬ fresh.any (fun x => x.id = it.id))) =
      db.transaction_items.filter (fun it => ¬ it.transactionId = txn.id)
    apply List.filter_congr
    intro it hit
    by_cases ht : it.transactionId = txn.id
    · have hmem : it ∈ fresh := by
        rw [hfresh]
        exact List.mem_filter.mpr ⟨hit, by simpa using ht⟩
      have hany : fresh.any (fun x => x.id = it.id) = true :=
        List.any_eq_true.mpr ⟨it, hmem, by simp⟩
      simp [hany, ht]
    · have hany : fresh.any (fun x => x.id = it.id) = false := by
        rw [List.any_eq_false]
        intro x hx
        have hx1 : x ∈ db.transaction_items := (List.mem_filter.mp (hfresh ▸ hx)).1
        have hx2 : x.transactionId = txn.id := by
          have := (List.mem_filter.mp (hfresh ▸ hx)).2
          simpa using this
        intro hc
        have hxit : x = it := nodup_map_inj TxnItemRecord.id db.transaction_items hndI x hx1 it hit (by simpa using hc)
        exact ht (hxit ▸ hx2)
      simp [hany, ht]
  · intro p hp
    have hops : ∀ op ∈ ((revertStockOps db txn.type fresh ++ revertDeleteOps fresh)
        ++ [Op.deleteTxn txn.id]), op.target = some p.id → ∃ d, op = Op.updateStockInc p.id d := by
      intro op hop htgt
      rcases List.mem_append.mp hop with h1 | h1
      · rcases List.mem_append.mp h1 with h2 | h2
        · obtain ⟨it, hit, hopx⟩ := revertStockOps_mem db txn.type fresh op h2
          rw [hopx] at htgt ⊢
          have : it.productId = p.id := by
            simpa [Op.target] using htgt
          rw [this]
          exact ⟨_, rfl⟩
        · obtain ⟨it, hit, hopx⟩ := revertDeleteOps_mem fresh op h2
          rw [hopx] at htgt
          simp [Op.target] at htgt
      · have : op = Op.deleteTxn txn.id := by simpa using h1
        rw [this] at htgt
        simp [Op.target] at htgt
    have hq : db.products.any (fun q => q.id = p.id) = true :=
      List.any_eq_true.mpr ⟨p, hp, by simp⟩
    have hfilter : (((revertStockOps db txn.type fresh ++ revertDeleteOps fresh)
        ++ [Op.deleteTxn txn.id]).filter (fun op => op.target = some p.id)) =
        (fresh.filter (fun it => it.productId = p.id)).map
          (fun it => Op.updateStockInc it.productId
            (if txn.type = TxnType.IN then it.quantity else -it.quantity)) := by
      rw [List.filter_append, List.filter_append, revertStockOps_filter db txn.type fresh p.id hq]
      have hBf : (revertDeleteOps fresh).filter (fun op => op.target = some p.id) = [] := by
        apply List.filter_eq_nil_iff.mpr
        intro op hop
        obtain ⟨it, hit, hopx⟩ := revertDeleteOps_mem fresh op hop
        rw [hopx]
        simp [Op.target]
      have hDf : ([Op.deleteTxn txn.id].filter (fun op => op.target = some p.id)) = [] := by
        simp [Op.target]
      rw [hBf, hDf, List.append_nil, List.append_nil]
    rw [hrev]
    unfold getStock findProduct
    rw [commitOps_products, foldProducts_find_incs _ p.id hops, hfilter,
      find?_self_of_nodup db.products p hndP hp]
    simp only [Option.map_some']
    congr 2
    rw [List.map_map]
    rfl

theorem sale_ops_no_deleteItem (db : DB) (txnId : String) (itemIds : List String)
    (clientId clientName : String) (st : Status) (discount : Rat) (cart : List CartItem) :
    ∀ i, ¬ Op.deleteItem i ∈ (Op.setTxn (saleTxnRecord txnId clientId clientName st discount cart)
      :: (saleItemOps db txnId itemIds 0 (cart.map (saleDetailSpec db))
          ++ consOps (cart.flatMap (saleConsSpec db)))) := by
  intro i hc
  rcases List.mem_cons.mp hc with h1 | h1
  · exact Op.noConfusion h1
  · rcases List.mem_append.mp h1 with h2 | h2
    · rcases saleItemOps_mem db txnId itemIds 0 _ _ h2 with ⟨x, hx⟩ | ⟨pid, s, hx⟩ <;>
        exact Op.noConfusion hx
    · obtain ⟨pid, s, hx⟩ := consOps_mem _ _ h2
      exact Op.noConfusion hx

theorem sale_ops_no_deleteTxn (db : DB) (txnId : String) (itemIds : List String)
    (clientId clientName : String) (st : Status) (discount : Rat) (cart : List CartItem) :
    ∀ i, ¬ Op.deleteTxn i ∈ (Op.setTxn (saleTxnRecord txnId clientId clientName st discount cart)
      :: (saleItemOps db txnId itemIds 0 (cart.map (saleDetailSpec db))
          ++ consOps (cart.flatMap (saleConsSpec db)))) := by
  intro i hc
  rcases List.mem_cons.mp hc with h1 | h1
  · exact Op.noConfusion h1
  · rcases List.mem_append.mp h1 with h2 | h2
    · rcases saleItemOps_mem db txnId itemIds 0 _ _ h2 with ⟨x, hx⟩ | ⟨pid, s, hx⟩ <;>
        exact Op.noConfusion hx
    · obtain ⟨pid, s, hx⟩ := consOps_mem _ _ h2
      exact Op.noConfusion hx

theorem sale_ops_newTxns (db : DB) (txnId : String) (itemIds : List String)
    (clientId clientName : String) (st : Status) (discount : Rat) (cart : List CartItem) :
    newTxnsOf (Op.setTxn (saleTxnRecord txnId clientId clientName st discount cart)
      :: (saleItemOps db txnId itemIds 0 (cart.map (saleDetailSpec db))
          ++ consOps (cart.flatMap (saleConsSpec db)))) =
      [saleTxnRecord txnId clientId clientName st discount cart] := by
  simp only [newTxnsOf, List.filterMap_cons]
  rw [← newTxnsOf]
  rw [newTxnsOf_no_setTxn]
  intro t hc
  rcases List.mem_append.mp hc with h2 | h2
  · rcases saleItemOps_mem db txnId itemIds 0 _ _ h2 with ⟨x, hx⟩ | ⟨pid, s, hx⟩ <;>
      exact Op.noConfusion hx
  · obtain ⟨pid, s, hx⟩ := consOps_mem _ _ h2
    exact Op.noConfusion hx

theorem sale_ops_newItems (db : DB) (txnId : String) (itemIds : List String)
    (clientId clientName : String) (st : Status) (discount : Rat) (cart : List CartItem) :
    newItemsOf (Op.setTxn (saleTxnRecord txnId clientId clientName st discount cart)
      :: (saleItemOps db txnId itemIds 0 (cart.map (saleDetailSpec db))
          ++ consOps (cart.flatMap (saleConsSpec db)))) =
      saleCreatedItems db txnId itemIds 0 (cart.map (saleDetailSpec db)) := by
  simp only [newItemsOf, List.filterMap_cons]
  rw [← newItemsOf, newItemsOf_append, saleItemOps_newItems, consOps_newItems, List.append_nil]

theorem sale_records_char (db : DB) (txnId : String) (itemIds : List String)
    (clientId clientName : String) (st : Status) (discount : Rat) (cart : List CartItem) (db' : DB)
    (hok : onFinalizeSale db txnId itemIds clientId clientName st discount cart = Except.ok db')
    (htfresh : ∀ t ∈ db.transactions, ¬ t.id = txnId)
    (hif1 : ∀ k, k < cart.length → ∀ it ∈ db.transaction_items, ¬ it.id = itemIds.getD k "")
    (hif2 : ∀ k, k < cart.length → ∀ k', k' < cart.length → ¬ k = k' →
      ¬ itemIds.getD k "" = itemIds.getD k' "") :
    db'.transactions = db.transactions ++ [saleTxnRecord txnId clientId clientName st discount cart] ∧
    db'.transaction_items = db.transaction_items
      ++ saleCreatedItems db txnId itemIds 0 (cart.map (saleDetailSpec db)) := by
  obtain ⟨hfacts, hdb⟩ := onFinalizeSale_ok_elim db txnId itemIds clientId clientName st discount cart db' hok
  have hlen : (cart.map (saleDetailSpec db)).length = cart.length := List.length_map cart _
  constructor
  · rw [hdb, commitOps_txns, foldTxns_append]
    · rw [sale_ops_newTxns]
    · exact sale_ops_no_deleteTxn db txnId itemIds clientId clientName st discount cart
    · rw [sale_ops_newTxns]
      intro x hx t ht
      have hxr : x = saleTxnRecord txnId clientId clientName st discount cart := by simpa using hx
      rw [hxr]
      exact htfresh t ht
    · rw [sale_ops_newTxns]
      simp
  · rw [hdb, commitOps_items, foldItems_append]
    · rw [sale_ops_newItems]
    · exact sale_ops_no_deleteItem db txnId itemIds clientId clientName st discount cart
    · rw [sale_ops_newItems]
      intro x hx it hit
      obtain ⟨k, hk, hid⟩ := saleCreatedItems_mem_id db txnId itemIds 0 _ x hx
      rw [hid]
      have hk' : k < cart.length := by rw [← hlen]; exact hk
      have h0 : (0 : Nat) + k = k := by omega
      rw [h0]
      exact hif1 k hk' it hit
    · rw [sale_ops_newItems]
      apply saleCreatedItems_id_nodup
      intro k k' hkk hk'
      have hk2 : k' < cart.length := by rw [← hlen]; exact hk'
      have hk1 : k < cart.length := by omega
      have e0 : (0 : Nat) + k = k := by omega
      have e1 : (0 : Nat) + k' = k' := by omega
      rw [e0, e1]
      exact hif2 k hk1 k' hk2 (by omega)

/-- C2 counterexample.  The claim states that every successful sale
decrements each BOM component by `shortfall * quantityPerUnit` for
every line item.  In this concrete store, products A and B share
component C (one unit per unit); selling 2 A and 2 B succeeds, and the
claim requires C to drop from 10 to 6, but because both consumption
writes are absolute values computed from the same pre-transaction
snapshot, the second write overwrites the first and C ends at 8. -/
theorem claim_C2_counterexample_shared_component :
    onFinalizeSale dbShared "t1" ["i1", "i2"] "cli" "Cliente" Status.COMPLETED 0 [exItemA, exItemB]
      = Except.ok (saleFinalState dbShared "t1" ["i1", "i2"] "cli" "Cliente" Status.COMPLETED 0 [exItemA, exItemB]) ∧
    getStock (saleFinalState dbShared "t1" ["i1", "i2"] "cli" "Cliente" Status.COMPLETED 0 [exItemA, exItemB]) "C"
      = some 8 ∧
    ¬ getStock (saleFinalState dbShared "t1" ["i1", "i2"] "cli" "Cliente" Status.COMPLETED 0 [exItemA, exItemB]) "C"
      = some 6 :=
  ⟨rfl, by decide, by decide⟩

/-- C2 (amended).  For every successful sale in which the sold product
ids and the consumed component ids are pairwise distinct (no component
is shared between lines, none is also a sold product, and no BOM lists
a component twice), the sold product's stock is decremented by
`fromStock = min(currentStock, quantity)` and each component consumed
to cover a positive shortfall is decremented by
`shortfall * quantityPerUnit`, both computed from pre-sale stock.
Without the distinctness condition only the last absolute write to a
shared component survives (see the counterexample). -/
theorem claim_C2_sale_stock_amended (db : DB) (txnId : String) (itemIds : List String)
    (clientId clientName : String) (st : Status) (discount : Rat) (cart : List CartItem) (db' : DB)
    (hok : onFinalizeSale db txnId itemIds clientId clientName st discount cart = Except.ok db')
    (hnd : ((cart.map CartItem.productId) ++ cart.flatMap (lineConsIds db)).Nodup) :
    (∀ item ∈ cart, ∀ p, findProduct db item.productId = some p →
        getStock db' item.productId = some (p.currentStock - fromStockOf p item)) ∧
    (∀ item ∈ cart, ∀ p, findProduct db item.productId = some p → hasBom p = true →
        ∀ comp ∈ p.bom.getD [], 0 < shortfallOf p item * comp.quantity →
          ∀ cp, findProduct db comp.productId = some cp →
            getStock db' comp.productId = some (cp.currentStock - shortfallOf p item * comp.quantity)) :=
  sale_stock_char db txnId itemIds clientId clientName st discount cart db' hok hnd

/-- Witness for C2 at scenario B: selling 3 units of F (BOM `[{C, 2}]`,
F.stock 0, C.stock 10) succeeds, leaves F at 0 and C at 4. -/
theorem claim_C2_sale_stock_amended_witness :
    onFinalizeSale dbScenB "t1" ["i1"] "cli" "Cliente" Status.COMPLETED 0 [exItemF]
      = Except.ok (saleFinalState dbScenB "t1" ["i1"] "cli" "Cliente" Status.COMPLETED 0 [exItemF]) ∧
    (([exItemF].map CartItem.productId) ++ [exItemF].flatMap (lineConsIds dbScenB)).Nodup ∧
    getStock (saleFinalState dbScenB "t1" ["i1"] "cli" "Cliente" Status.COMPLETED 0 [exItemF]) "F" = some 0 ∧
    getStock (saleFinalState dbScenB "t1" ["i1"] "cli" "Cliente" Status.COMPLETED 0 [exItemF]) "C" = some 4 := by
  have hok : onFinalizeSale dbScenB "t1" ["i1"] "cli" "Cliente" Status.COMPLETED 0 [exItemF]
      = Except.ok (saleFinalState dbScenB "t1" ["i1"] "cli" "Cliente" Status.COMPLETED 0 [exItemF]) := rfl
  have hnd : (([exItemF].map CartItem.productId) ++ [exItemF].flatMap (lineConsIds dbScenB)).Nodup := by
    decide
  have h := claim_C2_sale_stock_amended dbScenB "t1" ["i1"] "cli" "Cliente" Status.COMPLETED 0 [exItemF]
    (saleFinalState dbScenB "t1" ["i1"] "cli" "Cliente" Status.COMPLETED 0 [exItemF]) hok hnd
  refine ⟨hok, hnd, ?_, ?_⟩
  · exact h.1 exItemF (List.mem_cons_self exItemF []) exF rfl
  · exact h.2 exItemF (List.mem_cons_self exItemF []) exF rfl rfl
      { productId := "C", quantity := 2 } (List.mem_cons_self _ []) (by decide) exC rfl

/-- C3 (confirmed).  If the sale transaction body fails for any line
item — the product is missing, a BOM component is missing, or a
component cannot cover `shortfall * quantityPerUnit` — then
`onFinalizeSale` returns the thrown error, and the observed state is
exactly the pre-sale store: no stock change, no Transaction and no
TransactionItem (the shim applies buffered writes only after the body
returns normally). -/
theorem claim_C3_sale_atomicity (db : DB) (txnId : String) (itemIds : List String)
    (clientId clientName : String) (st : Status) (discount : Rat) (cart : List CartItem)
    (hfail : ∃ item ∈ cart, findProduct db item.productId = none ∨
      ∃ p, findProduct db item.productId = some p ∧
        ∃ comp ∈ p.bom.getD [], (findProduct db comp.productId = none ∨
          ∀ cp, findProduct db comp.productId = some cp →
            cp.currentStock < shortfallOf p item * comp.quantity)) :
    (∃ e, onFinalizeSale db txnId itemIds clientId clientName st discount cart = Except.error e) ∧
    saleFinalState db txnId itemIds clientId clientName st discount cart = db := by
  obtain ⟨item, hm, hcond⟩ := hfail
  obtain ⟨e0, he0⟩ := checkItem_err db item hcond
  obtain ⟨e, he⟩ := saleReadPhase_err db cart ⟨item, hm, e0, he0⟩
  constructor
  · exact ⟨e, by simp [onFinalizeSale, saleOps, he, Except.map]⟩
  · simp [saleFinalState, onFinalizeSale, saleOps, he, Except.map]

/-- Witness for C3 at scenario C: selling 3 units of F when C.stock is
4 (required 6) fails and leaves the store untouched. -/
theorem claim_C3_sale_atomicity_witness :
    (∃ item ∈ [exItemF], findProduct dbScenC item.productId = none ∨
      ∃ p, findProduct dbScenC item.productId = some p ∧
        ∃ comp ∈ p.bom.getD [], (findProduct dbScenC comp.productId = none ∨
          ∀ cp, findProduct dbScenC comp.productId = some cp →
            cp.currentStock < shortfallOf p item * comp.quantity)) ∧
    (∃ e, onFinalizeSale dbScenC "t1" ["i1"] "cli" "Cliente" Status.COMPLETED 0 [exItemF]
      = Except.error e) ∧
    saleFinalState dbScenC "t1" ["i1"] "cli" "Cliente" Status.COMPLETED 0 [exItemF] = dbScenC := by
  have hfail : ∃ item ∈ [exItemF], findProduct dbScenC item.productId = none ∨
      ∃ p, findProduct dbScenC item.productId = some p ∧
        ∃ comp ∈ p.bom.getD [], (findProduct dbScenC comp.productId = none ∨
          ∀ cp, findProduct dbScenC comp.productId = some cp →
            cp.currentStock < shortfallOf p item * comp.quantity) := by
    refine ⟨exItemF, List.mem_cons_self exItemF [], Or.inr ⟨exF, rfl, ?_⟩⟩
    refine ⟨{ productId := "C", quantity := 2 }, List.mem_cons_self _ [], Or.inr ?_⟩
    intro cp hcp
    have hcp' : exC4 = cp := Option.some.inj hcp
    rw [← hcp']
    decide
  have h := claim_C3_sale_atomicity dbScenC "t1" ["i1"] "cli" "Cliente" Status.COMPLETED 0 [exItemF] hfail
  exact ⟨hfail, h.1, h.2⟩

theorem saleItemOps_mem_detail (db : DB) (txnId : String) (itemIds : List String) (i : Nat)
    (details : List SaleDetail) (op : Op) (h : op ∈ saleItemOps db txnId itemIds i details) :
    (∃ x, op = Op.setItem x) ∨
    (∃ d ∈ details, op = Op.updateStockAbs d.item.productId (d.snap.currentStock - d.item.availableStock)) := by
  induction details generalizing i with
  | nil => simp [saleItemOps] at h
  | cons d rest ih =>
    simp only [saleItemOps, List.mem_cons] at h
    rcases h with h | h | h
    · exact Or.inl ⟨_, h⟩
    · exact Or.inr ⟨d, List.mem_cons_self d rest, h⟩
    · rcases ih (i + 1) h with h1 | ⟨d', hd', h1⟩
      · exact Or.inl h1
      · exact Or.inr ⟨d', List.mem_cons_of_mem d hd', h1⟩

theorem consOps_mem_entry (c : List ConsumptionOp) (op : Op) (h : op ∈ consOps c) :
    ∃ x ∈ c, op = Op.updateStockAbs x.compId (x.snap.currentStock - x.required) := by
  induction c with
  | nil => simp [consOps] at h
  | cons x rest ih =>
    simp only [consOps, List.mem_cons] at h
    rcases h with h | h
    · exact ⟨x, List.mem_cons_self x rest, h⟩
    · obtain ⟨x', hx', h1⟩ := ih h
      exact ⟨x', List.mem_cons_of_mem x hx', h1⟩

/-- C10 (confirmed).  If every product's stock is non-negative before a
sale, every product's stock is still non-negative after any successful
sale: sold products are decremented by `min(currentStock, quantity)`
only, and components only by requirements that were checked against
their stock. -/
theorem claim_C10_nonneg_stock (db : DB) (txnId : String) (itemIds : List String)
    (clientId clientName : String) (st : Status) (discount : Rat) (cart : List CartItem) (db' : DB)
    (hok : onFinalizeSale db txnId itemIds clientId clientName st discount cart = Except.ok db')
    (hpos : ∀ p ∈ db.products, 0 ≤ p.currentStock) :
    ∀ p ∈ db'.products, 0 ≤ p.currentStock := by
  obtain ⟨hfacts, hdb⟩ := onFinalizeSale_ok_elim db txnId itemIds clientId clientName st discount cart db' hok
  have hsafe : ∀ op ∈ (Op.setTxn (saleTxnRecord txnId clientId clientName st discount cart)
      :: (saleItemOps db txnId itemIds 0 (cart.map (saleDetailSpec db))
          ++ consOps (cart.flatMap (saleConsSpec db)))), opSafe op := by
    intro op hop
    rcases List.mem_cons.mp hop with h1 | h1
    · rw [h1]; trivial
    · rcases List.mem_append.mp h1 with h2 | h2
      · rcases saleItemOps_mem_detail db txnId itemIds 0 _ _ h2 with ⟨x, hx⟩ | ⟨d, hd, hx⟩
        · rw [hx]; trivial
        · rw [hx]
          obtain ⟨c, hc, hdc⟩ := List.mem_map.mp hd
          obtain ⟨p, hp, hfc⟩ := hfacts c hc
          have hds : d = { snap := p, item := { c with availableStock := fromStockOf p c } } := by
            rw [← hdc]
            simp [saleDetailSpec, hp]
          rw [hds]
          show (0 : Int) ≤ p.currentStock - fromStockOf p c
          have : fromStockOf p c ≤ p.currentStock := min_le_left _ _
          omega
      · obtain ⟨x, hx, hop2⟩ := consOps_mem_entry _ _ h2
        rw [hop2]
        obtain ⟨c, hc, hxc⟩ := List.mem_flatMap.mp hx
        obtain ⟨p, hp, hfc⟩ := hfacts c hc
        obtain ⟨hfx, hxpos, hxle⟩ := hfc x hxc
        show (0 : Int) ≤ x.snap.currentStock - x.required
        omega
  rw [hdb]
  show ∀ p ∈ (commitOps db _).products, 0 ≤ p.currentStock
  rw [commitOps_products]
  exact foldProducts_nonneg _ db.products hsafe hpos

/-- Witness for C10: the scenario-B sale starting from all-non-negative
stocks ends with all stocks non-negative. -/
theorem claim_C10_nonneg_stock_witness :
    onFinalizeSale dbScenB "t1" ["i1"] "cli" "Cliente" Status.COMPLETED 0 [exItemF]
      = Except.ok (saleFinalState dbScenB "t1" ["i1"] "cli" "Cliente" Status.COMPLETED 0 [exItemF]) ∧
    (∀ p ∈ dbScenB.products, 0 ≤ p.currentStock) ∧
    ∀ p ∈ (saleFinalState dbScenB "t1" ["i1"] "cli" "Cliente" Status.COMPLETED 0 [exItemF]).products,
      0 ≤ p.currentStock := by
  have hok : onFinalizeSale dbScenB "t1" ["i1"] "cli" "Cliente" Status.COMPLETED 0 [exItemF]
      = Except.ok (saleFinalState dbScenB "t1" ["i1"] "cli" "Cliente" Status.COMPLETED 0 [exItemF]) := rfl
  have hpos : ∀ p ∈ dbScenB.products, 0 ≤ p.currentStock := by decide
  exact ⟨hok, hpos,
    claim_C10_nonneg_stock dbScenB "t1" ["i1"] "cli" "Cliente" Status.COMPLETED 0 [exItemF] _ hok hpos⟩

theorem vsLoop_err (ps : List Product) (bom : List BomEntry) (acc : Option Int)
    (h : ∃ comp ∈ bom, comp.quantity ≤ 0) : vsLoop ps bom acc = Except.error () := by
  induction bom generalizing acc with
  | nil => simp at h
  | cons comp rest ih =>
    obtain ⟨c0, hc0, hq⟩ := h
    rcases List.mem_cons.mp hc0 with h1 | h1
    · subst h1
      simp only [vsLoop, if_pos hq]
    · simp only [vsLoop]
      by_cases hcq : comp.quantity ≤ 0
      · rw [if_pos hcq]
      · rw [if_neg hcq]
        exact ih _ ⟨c0, h1, hq⟩

theorem vsLoop_some (ps : List Product) (bom : List BomEntry) (m : Int)
    (hpos : ∀ comp ∈ bom, 0 < comp.quantity) :
    ∃ r, vsLoop ps bom (some m) = Except.ok (some r) ∧ r ≤ m ∧
      (∀ comp ∈ bom, r ≤ vsProducible ps comp) ∧
      (r = m ∨ ∃ comp ∈ bom, r = vsProducible ps comp) := by
  induction bom generalizing m with
  | nil => exact ⟨m, rfl, le_refl m, by simp, Or.inl rfl⟩
  | cons comp rest ih =>
    have hq : 0 < comp.quantity := hpos comp (List.mem_cons_self comp rest)
    have hq' : ¬ comp.quantity ≤ 0 := by omega
    obtain ⟨r, hr, hrm, hrall, hratt⟩ := ih (min m (vsProducible ps comp))
      (fun c hc => hpos c (List.mem_cons_of_mem comp hc))
    refine ⟨r, ?_, ?_, ?_, ?_⟩
    · simp only [vsLoop, if_neg hq']
      exact hr
    · exact le_trans hrm (min_le_left m _)
    · intro c hc
      rcases List.mem_cons.mp hc with h1 | h1
      · rw [h1]
        exact le_trans hrm (min_le_right m _)
      · exact hrall c h1
    · rcases hratt with h1 | ⟨c, hc, h1⟩
      · by_cases hmm : m ≤ vsProducible ps comp
        · rw [min_eq_left hmm] at h1
          exact Or.inl h1
        · rw [min_eq_right (by omega)] at h1
          exact Or.inr ⟨comp, List.mem_cons_self comp rest, h1⟩
      · exact Or.inr ⟨c, List.mem_cons_of_mem comp hc, h1⟩

/-- C5 (confirmed).  `computeVirtualStock` returns 0 when an input is
absent, the BOM is absent or empty, or some `quantityPerUnit ≤ 0`; for
a non-empty BOM with positive quantities it returns the minimum over
components of `Math.floor(componentStock / quantityPerUnit)` (a missing
component contributing stock 0), so in particular it never exceeds any
single component's producible count. -/
theorem claim_C5_virtual_stock :
    (∀ ps, computeVirtualStock none ps = 0) ∧
    (∀ fp, computeVirtualStock fp none = 0) ∧
    (∀ f ps, f.bom = none → computeVirtualStock (some f) (some ps) = 0) ∧
    (∀ f ps, f.bom = some [] → computeVirtualStock (some f) (some ps) = 0) ∧
    (∀ f ps bom, f.bom = some bom → (∃ comp ∈ bom, comp.quantity ≤ 0) →
      computeVirtualStock (some f) (some ps) = 0) ∧
    (∀ f ps bom, f.bom = some bom → ¬ bom = [] → (∀ comp ∈ bom, 0 < comp.quantity) →
      (∀ comp ∈ bom, computeVirtualStock (some f) (some ps) ≤ vsProducible ps comp) ∧
      (∃ comp ∈ bom, computeVirtualStock (some f) (some ps) = vsProducible ps comp)) := by
  refine ⟨fun ps => by cases ps <;> rfl, fun fp => by cases fp <;> rfl,
    fun f ps h => by simp [computeVirtualStock, h],
    fun f ps h => by simp [computeVirtualStock, h],
    fun f ps bom hb h => ?_, fun f ps bom hb hne hpos => ?_⟩
  · simp only [computeVirtualStock, hb]
    cases bom with
    | nil => simp at h
    | cons comp rest =>
      rw [if_neg (by simp)]
      rw [vsLoop_err ps (comp :: rest) none h]
  · cases bom with
    | nil => exact absurd rfl hne
    | cons comp rest =>
      have hq : 0 < comp.quantity := hpos comp (List.mem_cons_self comp rest)
      have hq' : ¬ comp.quantity ≤ 0 := by omega
      obtain ⟨r, hr, hrm, hrall, hratt⟩ := vsLoop_some ps rest (vsProducible ps comp)
        (fun c hc => hpos c (List.mem_cons_of_mem comp hc))
      have hcv : computeVirtualStock (some f) (some ps) = r := by
        simp only [computeVirtualStock, hb]
        rw [if_neg (by simp)]
        simp only [vsLoop, if_neg hq']
        show (match vsLoop ps rest (some (vsProducible ps comp)) with
          | Except.error _ => 0
          | Except.ok none => 0
          | Except.ok (some m) => m) = r
        rw [hr]
      constructor
      · intro c hc
        rcases List.mem_cons.mp hc with h1 | h1
        · rw [hcv, h1]
          exact hrm
        · rw [hcv]
          exact hrall c h1
      · rcases hratt with h1 | ⟨c, hc, h1⟩
        · exact ⟨comp, List.mem_cons_self comp rest, by rw [hcv, h1]⟩
        · exact ⟨c, List.mem_cons_of_mem comp hc, by rw [hcv, h1]⟩

/-- Witness for C5: for F with BOM `[{C, 2}]` and C.stock 10 the
virtual stock is 5 = floor(10 / 2), and the bound holds. -/
theorem claim_C5_virtual_stock_witness :
    (exF.bom = some [{ productId := "C", quantity := 2 }] ∧
      ¬ ([{ productId := "C", quantity := 2 }] : List BomEntry) = [] ∧
      ∀ comp ∈ ([{ productId := "C", quantity := 2 }] : List BomEntry), 0 < comp.quantity) ∧
    computeVirtualStock (some exF) (some [exF, exC]) ≤
      vsProducible [exF, exC] { productId := "C", quantity := 2 } ∧
    computeVirtualStock (some exF) (some [exF, exC]) = 5 := by
  have h := (claim_C5_virtual_stock.2.2.2.2.2 exF [exF, exC]
    [{ productId := "C", quantity := 2 }] rfl (by decide) (by decide)).1
  refine ⟨⟨rfl, by decide, by decide⟩, h _ (List.mem_cons_self _ []), by decide⟩

/-- C1 counterexample.  The claim states that a finalized sale with a
no-BOM line whose quantity exceeds stock fails with an
insufficient-stock error and commits nothing.  Concretely, selling 15
units of P (no BOM, stock 10) through `onFinalizeSale` succeeds: the
transaction body has no stock check for products without a BOM, P is
decremented to 0 (by `fromStock = 10` only) and a Transaction record is
committed. -/
theorem claim_C1_counterexample_noBom_oversell :
    onFinalizeSale dbScenA "t1" ["i1"] "cli" "Cliente" Status.COMPLETED 0 [exItemPOver]
      = Except.ok (saleFinalState dbScenA "t1" ["i1"] "cli" "Cliente" Status.COMPLETED 0 [exItemPOver]) ∧
    getStock (saleFinalState dbScenA "t1" ["i1"] "cli" "Cliente" Status.COMPLETED 0 [exItemPOver]) "P"
      = some 0 ∧
    (saleFinalState dbScenA "t1" ["i1"] "cli" "Cliente" Status.COMPLETED 0 [exItemPOver]).transactions.length
      = 1 :=
  ⟨rfl, by decide, by decide⟩

/-- C1 (amended).  The quantity-exceeds-stock check for products
without a BOM is enforced at add-to-cart time: `handleAddItem` fails
with the insufficient-stock error and the cart is unchanged.  The
finalize transaction itself performs no such check: a cart whose lines
all reference existing no-BOM products always commits, whatever the
quantities. -/
theorem claim_C1_noBom_gate :
    (∀ (p : Product) (quantity : Int) (price : Rat) (allProducts : List Product) (cart : List CartItem),
      hasBom p = false → 0 < quantity → p.currentStock < quantity →
      handleAddItem (some p) quantity price allProducts cart = Except.error AddError.insufficientStock) ∧
    (∀ (db : DB) (txnId : String) (itemIds : List String) (clientId clientName : String)
        (st : Status) (discount : Rat) (cart : List CartItem),
      (∀ c ∈ cart, ∃ pr, findProduct db c.productId = some pr ∧ hasBom pr = false) →
      ∃ db', onFinalizeSale db txnId itemIds clientId clientName st discount cart = Except.ok db') := by
  constructor
  · intro p quantity price allProducts cart hb hq hlt
    simp only [handleAddItem]
    rw [if_neg (show ¬ quantity ≤ 0 by omega), if_pos ⟨hb, hlt⟩]
  · intro db txnId itemIds clientId clientName st discount cart h
    have hall : ∀ c ∈ cart, ∃ r, checkItem db c = Except.ok r := by
      intro c hc
      obtain ⟨pr, hpr, hbr⟩ := h c hc
      exact ⟨_, checkItem_noBom db c pr hpr hbr⟩
    obtain ⟨rs, hrs⟩ := saleReadPhase_all_ok db cart hall
    refine ⟨commitOps db (Op.setTxn (saleTxnRecord txnId clientId clientName st discount cart)
      :: (saleItemOps db txnId itemIds 0 (rs.map Prod.fst) ++ consOps (rs.flatMap Prod.snd))), ?_⟩
    simp [onFinalizeSale, saleOps, hrs, Except.map]

/-- Witness for C1: adding 15 units of P (stock 10, no BOM) to the cart
fails with the insufficient-stock error, while finalizing a cart that
already contains that line succeeds. -/
theorem claim_C1_noBom_gate_witness :
    (hasBom exP = false ∧ 0 < (15 : Int) ∧ exP.currentStock < 15 ∧
      handleAddItem (some exP) 15 50 [exP] [] = Except.error AddError.insufficientStock) ∧
    ((∀ c ∈ [exItemPOver], ∃ pr, findProduct dbScenA c.productId = some pr ∧ hasBom pr = false) ∧
      ∃ db', onFinalizeSale dbScenA "t1" ["i1"] "cli" "Cliente" Status.COMPLETED 0 [exItemPOver]
        = Except.ok db') := by
  have hfound : ∀ c ∈ [exItemPOver], ∃ pr, findProduct dbScenA c.productId = some pr ∧ hasBom pr = false := by
    intro c hc
    have hce : c = exItemPOver := by simpa using hc
    rw [hce]
    exact ⟨exP, rfl, rfl⟩
  refine ⟨⟨rfl, by decide, by decide,
    claim_C1_noBom_gate.1 exP 15 50 [exP] [] rfl (by decide) (by decide)⟩,
    hfound,
    claim_C1_noBom_gate.2 dbScenA "t1" ["i1"] "cli" "Cliente" Status.COMPLETED 0 [exItemPOver] hfound⟩

/-- C8 counterexample.  The claim states that a successful sale also
persists consumption TransactionItems for the BOM components consumed
via shortfall.  Concretely, selling 3 units of F (shortfall 3, 6 units
of C consumed — C drops to 4) persists exactly one TransactionItem (the
sold line); no consumption record is created — the consumption-record
code lives only in `processBomExplosionSale`, which the sale flow never
calls. -/
theorem claim_C8_counterexample_no_consumption_items :
    onFinalizeSale dbScenB "t1" ["i1"] "cli" "Cliente" Status.COMPLETED 0 [exItemF]
      = Except.ok (saleFinalState dbScenB "t1" ["i1"] "cli" "Cliente" Status.COMPLETED 0 [exItemF]) ∧
    0 < shortfallOf exF exItemF ∧
    getStock (saleFinalState dbScenB "t1" ["i1"] "cli" "Cliente" Status.COMPLETED 0 [exItemF]) "C" = some 4 ∧
    (saleFinalState dbScenB "t1" ["i1"] "cli" "Cliente" Status.COMPLETED 0 [exItemF]).transaction_items.length
      = 1 :=
  ⟨rfl, by decide, by decide, by decide⟩

/-- C8 (amended).  Every successful sale persists exactly one
Transaction of type IN and exactly one TransactionItem per sold cart
line — and nothing else: no TransactionItems are created for the BOM
components consumed to cover shortfalls (their stock is decremented
without a consumption record). -/
theorem claim_C8_sale_records_amended (db : DB) (txnId : String) (itemIds : List String)
    (clientId clientName : String) (st : Status) (discount : Rat) (cart : List CartItem) (db' : DB)
    (hok : onFinalizeSale db txnId itemIds clientId clientName st discount cart = Except.ok db')
    (htfresh : ∀ t ∈ db.transactions, ¬ t.id = txnId)
    (hif1 : ∀ k, k < cart.length → ∀ it ∈ db.transaction_items, ¬ it.id = itemIds.getD k "")
    (hif2 : ∀ k, k < cart.length → ∀ k', k' < cart.length → ¬ k = k' →
      ¬ itemIds.getD k "" = itemIds.getD k' "") :
    db'.transactions = db.transactions ++ [saleTxnRecord txnId clientId clientName st discount cart] ∧
    (saleTxnRecord txnId clientId clientName st discount cart).type = TxnType.IN ∧
    db'.transaction_items.length = db.transaction_items.length + cart.length := by
  obtain ⟨ht, hi⟩ := sale_records_char db txnId itemIds clientId clientName st discount cart db'
    hok htfresh hif1 hif2
  refine ⟨ht, rfl, ?_⟩
  rw [hi, List.length_append, saleCreatedItems_length, List.length_map]

/-- Witness for C8 at scenario B: one Transaction and one
TransactionItem are appended for the single-line sale. -/
theorem claim_C8_sale_records_amended_witness :
    onFinalizeSale dbScenB "t1" ["i1"] "cli" "Cliente" Status.COMPLETED 0 [exItemF]
      = Except.ok (saleFinalState dbScenB "t1" ["i1"] "cli" "Cliente" Status.COMPLETED 0 [exItemF]) ∧
    (∀ t ∈ dbScenB.transactions, ¬ t.id = "t1") ∧
    (saleFinalState dbScenB "t1" ["i1"] "cli" "Cliente" Status.COMPLETED 0 [exItemF]).transaction_items.length
      = dbScenB.transaction_items.length + 1 := by
  have hok : onFinalizeSale dbScenB "t1" ["i1"] "cli" "Cliente" Status.COMPLETED 0 [exItemF]
      = Except.ok (saleFinalState dbScenB "t1" ["i1"] "cli" "Cliente" Status.COMPLETED 0 [exItemF]) := rfl
  have htfresh : ∀ t ∈ dbScenB.transactions, ¬ t.id = "t1" := by simp [dbScenB]
  have h := claim_C8_sale_records_amended dbScenB "t1" ["i1"] "cli" "Cliente" Status.COMPLETED 0 [exItemF]
    (saleFinalState dbScenB "t1" ["i1"] "cli" "Cliente" Status.COMPLETED 0 [exItemF]) hok htfresh
    (by simp [dbScenB]) (by decide)
  exact ⟨hok, htfresh, h.2.2⟩

theorem getD_append_offset {α : Type} (l1 l2 : List α) (j : Nat) (d : α) :
    (l1 ++ l2).getD (l1.length + j) d = l2.getD j d := by
  induction l1 with
  | nil => simp
  | cons a rest ih =>
    have h1 : (a :: rest).length + j = (rest.length + j) + 1 := by
      simp [List.length_cons]
      omega
    rw [h1, List.cons_append, List.getD_cons_succ, ih]

theorem getD_map_detail (cart : List CartItem) (f : CartItem → SaleDetail) (j : Nat)
    (hj : j < cart.length) (d : SaleDetail) (d0 : CartItem) :
    (cart.map f).getD j d = f (cart.getD j d0) := by
  induction cart generalizing j with
  | nil => simp at hj
  | cons c rest ih =>
    cases j with
    | zero => rfl
    | succ j' =>
      rw [List.map_cons, List.getD_cons_succ, List.getD_cons_succ]
      exact ih j' (by simpa using Nat.lt_of_succ_lt_succ hj)

/-- C7 (confirmed).  For every successful sale and every cart line with
positive quantity, the persisted TransactionItem's `costPrice` is the
blended unit cost `(fromStock * readyCostPrice + shortfall *
assembledCostPerUnit) / quantity`, where `assembledCostPerUnit` is the
sum over BOM components of `componentCostPrice * quantityPerUnit`
(0 for products without a BOM). -/
theorem claim_C7_blended_cost (db : DB) (txnId : String) (itemIds : List String)
    (clientId clientName : String) (st : Status) (discount : Rat) (cart : List CartItem) (db' : DB)
    (hok : onFinalizeSale db txnId itemIds clientId clientName st discount cart = Except.ok db')
    (htfresh : ∀ t ∈ db.transactions, ¬ t.id = txnId)
    (hif1 : ∀ k, k < cart.length → ∀ it ∈ db.transaction_items, ¬ it.id = itemIds.getD k "")
    (hif2 : ∀ k, k < cart.length → ∀ k', k' < cart.length → ¬ k = k' →
      ¬ itemIds.getD k "" = itemIds.getD k' "")
    (j : Nat) (hj : j < cart.length)
    (hq : 0 < (cart.getD j dummyCartItem).quantity) :
    ∀ p, findProduct db (cart.getD j dummyCartItem).productId = some p →
      (db'.transaction_items.getD (db.transaction_items.length + j) dummyItemRecord).costPrice =
        some (((fromStockOf p (cart.getD j dummyCartItem) : Rat) * p.costPrice
          + (shortfallOf p (cart.getD j dummyCartItem) : Rat) * assembledCostPerUnit db p)
          / ((cart.getD j dummyCartItem).quantity : Rat)) := by
  intro p hp
  obtain ⟨ht, hi⟩ := sale_records_char db txnId itemIds clientId clientName st discount cart db'
    hok htfresh hif1 hif2
  have hjlen : j < (cart.map (saleDetailSpec db)).length := by
    rw [List.length_map]
    exact hj
  rw [hi, getD_append_offset, saleCreatedItems_getD db txnId itemIds 0 _ j hjlen,
    getD_map_detail cart (saleDetailSpec db) j hj dummySaleDetail dummyCartItem]
  have hd : saleDetailSpec db (cart.getD j dummyCartItem) =
      { snap := p, item := { cart.getD j dummyCartItem with
          availableStock := fromStockOf p (cart.getD j dummyCartItem) } } := by
    simp only [saleDetailSpec]
    rw [hp]
  rw [hd]
  simp only [saleItemRecord]
  rw [if_pos hq]
  rfl

/-- Witness for C7 at scenario B: the single line of 3 units of F has
blended cost `(0 * 7 + 3 * 6) / 3`. -/
theorem claim_C7_blended_cost_witness :
    onFinalizeSale dbScenB "t1" ["i1"] "cli" "Cliente" Status.COMPLETED 0 [exItemF]
      = Except.ok (saleFinalState dbScenB "t1" ["i1"] "cli" "Cliente" Status.COMPLETED 0 [exItemF]) ∧
    0 < ([exItemF].getD 0 dummyCartItem).quantity ∧
    ((saleFinalState dbScenB "t1" ["i1"] "cli" "Cliente" Status.COMPLETED 0 [exItemF]).transaction_items.getD
        (dbScenB.transaction_items.length + 0) dummyItemRecord).costPrice =
      some (((fromStockOf exF ([exItemF].getD 0 dummyCartItem) : Rat) * exF.costPrice
        + (shortfallOf exF ([exItemF].getD 0 dummyCartItem) : Rat) * assembledCostPerUnit dbScenB exF)
        / (([exItemF].getD 0 dummyCartItem).quantity : Rat)) := by
  have hok : onFinalizeSale dbScenB "t1" ["i1"] "cli" "Cliente" Status.COMPLETED 0 [exItemF]
      = Except.ok (saleFinalState dbScenB "t1" ["i1"] "cli" "Cliente" Status.COMPLETED 0 [exItemF]) := rfl
  refine ⟨hok, by decide, ?_⟩
  exact claim_C7_blended_cost dbScenB "t1" ["i1"] "cli" "Cliente" Status.COMPLETED 0 [exItemF]
    (saleFinalState dbScenB "t1" ["i1"] "cli" "Cliente" Status.COMPLETED 0 [exItemF]) hok
    (by simp [dbScenB]) (by simp [dbScenB]) (by decide) 0 (by decide) (by decide) exF rfl

theorem updateFirst_map_id (pid : String) (f : Product → Product) (l : List Product)
    (hf : ∀ p, (f p).id = p.id) : (updateFirst pid f l).map Product.id = l.map Product.id := by
  induction l with
  | nil => rfl
  | cons p ps ih =>
    simp only [updateFirst]
    by_cases hp : p.id = pid
    · rw [if_pos hp]
      simp [hf p]
    · rw [if_neg hp]
      simp [ih]

theorem applyOpProducts_map_id (op : Op) (l : List Product) :
    (applyOpProducts op l).map Product.id = l.map Product.id := by
  cases op with
  | updateStockAbs pid s => exact updateFirst_map_id pid _ l (fun p => rfl)
  | updateStockInc pid d => exact updateFirst_map_id pid _ l (fun p => rfl)
  | updatePurchase pid q c sid => exact updateFirst_map_id pid _ l (fun p => rfl)
  | setTxn t => rfl
  | setItem x => rfl
  | deleteTxn i => rfl
  | deleteItem i => rfl

theorem commitOps_products_map_id (ops : List Op) (db : DB) :
    ((commitOps db ops).products).map Product.id = db.products.map Product.id := by
  rw [commitOps_products]
  induction ops generalizing db with
  | nil => rfl
  | cons op rest ih =>
    rw [List.foldl_cons]
    have h1 := ih { db with products := applyOpProducts op db.products }
    simp only at h1
    rw [h1, applyOpProducts_map_id]

theorem saleCreatedItems_map_productId (db : DB) (txnId : String) (itemIds : List String) (i : Nat)
    (details : List SaleDetail) :
    (saleCreatedItems db txnId itemIds i details).map TxnItemRecord.productId =
      details.map (fun d => d.item.productId) := by
  induction details generalizing i with
  | nil => rfl
  | cons d rest ih => simp [saleCreatedItems, saleItemRecord, ih (i + 1)]

theorem saleCreatedItems_transactionId (db : DB) (txnId : String) (itemIds : List String) (i : Nat)
    (details : List SaleDetail) :
    ∀ x ∈ saleCreatedItems db txnId itemIds i details, x.transactionId = txnId := by
  induction details generalizing i with
  | nil => simp [saleCreatedItems]
  | cons d rest ih =>
    intro x hx
    rcases List.mem_cons.mp hx with h1 | h1
    · rw [h1]; rfl
    · exact ih (i + 1) x h1

theorem saleCreatedItems_quantity_price (db : DB) (txnId : String) (itemIds : List String) (i : Nat)
    (details : List SaleDetail) :
    ∀ x ∈ saleCreatedItems db txnId itemIds i details,
      ∃ d ∈ details, x.productId = d.item.productId ∧ x.quantity = d.item.quantity := by
  induction details generalizing i with
  | nil => simp [saleCreatedItems]
  | cons d rest ih =>
    intro x hx
    rcases List.mem_cons.mp hx with h1 | h1
    · exact ⟨d, List.mem_cons_self d rest, by rw [h1]; exact rfl, by rw [h1]; exact rfl⟩
    · obtain ⟨d', hd', h2, h3⟩ := ih (i + 1) x h1
      exact ⟨d', List.mem_cons_of_mem d hd', h2, h3⟩

/-- C4 counterexample.  The claim states that reversal applies the
inverse stock adjustment also for ASSEMBLY transactions.  Concretely,
reverting an ASSEMBLY that consumed 4 units of C (stock now 6) and
credited 2 units of F (stock now 2) subtracts the quantity of every
item because the type is not IN: C ends at 2 instead of the inverse 10,
F correctly returns to 0, and the transaction and items are deleted. -/
theorem claim_C4_counterexample_assembly_revert :
    getStock (handleRevert dbAsmDone exAsmTxn) "C" = some 2 ∧
    ¬ getStock (handleRevert dbAsmDone exAsmTxn) "C" = some 10 ∧
    getStock (handleRevert dbAsmDone exAsmTxn) "F" = some 0 ∧
    (handleRevert dbAsmDone exAsmTxn).transactions = [] ∧
    (handleRevert dbAsmDone exAsmTxn).transaction_items = [] := by
  refine ⟨by decide, by decide, by decide, by decide, by decide⟩

theorem details_map_productId (db : DB) (cart : List CartItem) :
    (cart.map (saleDetailSpec db)).map (fun d => d.item.productId) = cart.map CartItem.productId := by
  induction cart with
  | nil => rfl
  | cons c rest ih => simp [saleDetailSpec_productId, ih]

theorem saleConsSpec_noBom (db : DB) (c : CartItem) (p : Product)
    (hp : findProduct db c.productId = some p) (hb : hasBom p = false) :
    saleConsSpec db c = [] := by
  simp [saleConsSpec, hp, hb]

theorem flatMap_nil_of_all_nil {α β : Type} (l : List α) (f : α → List β)
    (h : ∀ x ∈ l, f x = []) : l.flatMap f = [] := by
  induction l with
  | nil => rfl
  | cons a rest ih =>
    rw [List.flatMap_cons, h a (List.mem_cons_self a rest), List.nil_append]
    exact ih (fun x hx => h x (List.mem_cons_of_mem a hx))

theorem created_filter_single (db : DB) (txnId : String) (itemIds : List String)
    (cart : List CartItem) (c : CartItem) (hc : c ∈ cart)
    (hnd : (cart.map CartItem.productId).Nodup) :
    ∀ i, ∃ x, (saleCreatedItems db txnId itemIds i (cart.map (saleDetailSpec db))).filter
      (fun it => it.productId = c.productId) = [x] ∧ x.quantity = c.quantity := by
  induction cart with
  | nil => simp at hc
  | cons c0 rest ih =>
    intro i
    rw [List.map_cons] at hnd ⊢
    have hnd' : c0.productId ∉ rest.map CartItem.productId ∧ (rest.map CartItem.productId).Nodup :=
      List.nodup_cons.mp hnd
    by_cases h0 : c0.productId = c.productId
    · have hcc : c = c0 := by
        rcases List.mem_cons.mp hc with h1 | h1
        · exact h1
        · exact absurd (h0 ▸ List.mem_map_of_mem CartItem.productId h1) hnd'.1
      subst hcc
      refine ⟨saleItemRecord db txnId (itemIds.getD i "") (saleDetailSpec db c), ?_, ?_⟩
      · simp only [saleCreatedItems]
        rw [List.filter_cons_of_pos (by
          show decide ((saleDetailSpec db c).item.productId = c.productId) = true
          rw [saleDetailSpec_productId]
          simp)]
        have hrest : (saleCreatedItems db txnId itemIds (i + 1) (rest.map (saleDetailSpec db))).filter
            (fun it => it.productId = c.productId) = [] := by
          apply List.filter_eq_nil_iff.mpr
          intro x hx
          have hxp : x.productId ∈ (rest.map (saleDetailSpec db)).map (fun d => d.item.productId) := by
            rw [← saleCreatedItems_map_productId db txnId itemIds (i + 1)]
            exact List.mem_map_of_mem TxnItemRecord.productId hx
          rw [details_map_productId] at hxp
          simp only [decide_eq_true_eq]
          intro hcontra
          exact hnd'.1 (hcontra ▸ hxp)
        rw [hrest]
      · have hq : (saleItemRecord db txnId (itemIds.getD i "") (saleDetailSpec db c)).quantity
            = (saleDetailSpec db c).item.quantity := rfl
        rw [hq]
        simp only [saleDetailSpec]
        cases findProduct db c.productId <;> rfl
    · have hc' : c ∈ rest := by
        rcases List.mem_cons.mp hc with h1 | h1
        · exact absurd (congrArg CartItem.productId h1.symm) h0
        · exact h1
      obtain ⟨x, hx1, hx2⟩ := ih hc' hnd'.2 (i + 1)
      refine ⟨x, ?_, hx2⟩
      simp only [saleCreatedItems]
      rw [List.filter_cons_of_neg (by
        show ¬ decide ((saleDetailSpec db c0).item.productId = c.productId) = true
        rw [saleDetailSpec_productId]
        simpa using h0)]
      exact hx1

/-- C4 (amended).  Reversal of a non-CANCELLED transaction applies, to
every item whose product still exists, the adjustment `+quantity` when
the transaction type is IN and `-quantity` for every other type (OUT
and ASSEMBLY alike) — so a purchase is inverted, a sale is inverted,
but an ASSEMBLY's component-consumption items are subtracted again
rather than added back; items whose product was deleted are silently
skipped, and the Transaction and all its TransactionItems are deleted.
For a COMPLETED sale of no-BOM products sold within stock, reverting
the sale restores every affected product's pre-sale stock and removes
the Transaction and its items. -/
theorem claim_C4_revert_amended :
    (∀ (db : DB) (txn : TxnRecord),
      ¬ txn.status = Status.CANCELLED →
      (db.transaction_items.map TxnItemRecord.id).Nodup →
      (db.products.map Product.id).Nodup →
      (handleRevert db txn).transactions = db.transactions.filter (fun t => ¬ t.id = txn.id) ∧
      (handleRevert db txn).transaction_items =
        db.transaction_items.filter (fun it => ¬ it.transactionId = txn.id) ∧
      ∀ p ∈ db.products,
        getStock (handleRevert db txn) p.id =
          some (p.currentStock +
            (((db.transaction_items.filter (fun it => it.transactionId = txn.id)).filter
                (fun it => it.productId = p.id)).map
              (fun it => if txn.type = TxnType.IN then it.quantity else -it.quantity)).sum)) ∧
    (∀ (db : DB) (txnId : String) (itemIds : List String) (clientId clientName : String)
        (discount : Rat) (cart : List CartItem) (db' : DB),
      onFinalizeSale db txnId itemIds clientId clientName Status.COMPLETED discount cart = Except.ok db' →
      (∀ c ∈ cart, ∃ p, findProduct db c.productId = some p ∧ hasBom p = false ∧
        c.quantity ≤ p.currentStock) →
      (db.products.map Product.id).Nodup →
      (cart.map CartItem.productId).Nodup →
      (db.transaction_items.map TxnItemRecord.id).Nodup →
      (∀ t ∈ db.transactions, ¬ t.id = txnId) →
      (∀ it ∈ db.transaction_items, ¬ it.transactionId = txnId) →
      (∀ k, k < cart.length → ∀ it ∈ db.transaction_items, ¬ it.id = itemIds.getD k "") →
      (∀ k, k < cart.length → ∀ k', k' < cart.length → ¬ k = k' →
        ¬ itemIds.getD k "" = itemIds.getD k' "") →
      (handleRevert db' (saleTxnRecord txnId clientId clientName Status.COMPLETED discount cart)).transactions
        = db.transactions ∧
      (handleRevert db' (saleTxnRecord txnId clientId clientName Status.COMPLETED discount cart)).transaction_items
        = db.transaction_items ∧
      ∀ c ∈ cart,
        getStock (handleRevert db' (saleTxnRecord txnId clientId clientName Status.COMPLETED discount cart))
          c.productId = getStock db c.productId) := by
  constructor
  · exact fun db txn hst hndI hndP => handleRevert_char db txn hst hndI hndP
  · intro db txnId itemIds clientId clientName discount cart db' hok hfound hndP hndCart hndI
      htfresh hTidFresh hif1 hif2
    obtain ⟨ht, hi⟩ := sale_records_char db txnId itemIds clientId clientName Status.COMPLETED
      discount cart db' hok htfresh hif1 hif2
    have hconsNil : cart.flatMap (lineConsIds db) = [] := by
      apply flatMap_nil_of_all_nil
      intro c hc
      obtain ⟨p, hp, hb, hle⟩ := hfound c hc
      simp [lineConsIds, saleConsSpec_noBom db c p hp hb]
    have hnd2 : ((cart.map CartItem.productId) ++ cart.flatMap (lineConsIds db)).Nodup := by
      rw [hconsNil, List.append_nil]
      exact hndCart
    have hs := sale_stock_char db txnId itemIds clientId clientName Status.COMPLETED discount cart db'
      hok hnd2
    have hlen : (cart.map (saleDetailSpec db)).length = cart.length := List.length_map cart _
    have hcreatedNodup : ((saleCreatedItems db txnId itemIds 0 (cart.map (saleDetailSpec db))).map
        TxnItemRecord.id).Nodup := by
      apply saleCreatedItems_id_nodup
      intro k k' hkk hk'
      have hk2 : k' < cart.length := by rw [← hlen]; exact hk'
      have e0 : (0 : Nat) + k = k := by omega
      have e1 : (0 : Nat) + k' = k' := by omega
      rw [e0, e1]
      exact hif2 k (by omega) k' hk2 (by omega)
    have hndI' : (db'.transaction_items.map TxnItemRecord.id).Nodup := by
      rw [hi, List.map_append]
      apply List.nodup_append.mpr
      refine ⟨hndI, hcreatedNodup, ?_⟩
      intro a ha hacreated
      obtain ⟨it, hit, hitid⟩ := List.mem_map.mp ha
      obtain ⟨x, hx, hxid⟩ := List.mem_map.mp hacreated
      obtain ⟨k, hk, hid⟩ := saleCreatedItems_mem_id db txnId itemIds 0 _ x hx
      have hk' : k < cart.length := by rw [← hlen]; exact hk
      have e0 : (0 : Nat) + k = k := by omega
      rw [e0] at hid
      exact hif1 k hk' it hit (by rw [hitid, ← hxid, hid])
    have hndP' : (db'.products.map Product.id).Nodup := by
      obtain ⟨hfacts, hdb⟩ := onFinalizeSale_ok_elim db txnId itemIds clientId clientName
        Status.COMPLETED discount cart db' hok
      rw [hdb, commitOps_products_map_id]
      exact hndP
    have hst : ¬ (saleTxnRecord txnId clientId clientName Status.COMPLETED discount cart).status
        = Status.CANCELLED := fun hcontra => Status.noConfusion hcontra
    obtain ⟨hr1, hr2, hr3⟩ := handleRevert_char db'
      (saleTxnRecord txnId clientId clientName Status.COMPLETED discount cart) hst hndI' hndP'
    have hfreshEq : db'.transaction_items.filter
        (fun it => it.transactionId = (saleTxnRecord txnId clientId clientName Status.COMPLETED discount cart).id)
        = saleCreatedItems db txnId itemIds 0 (cart.map (saleDetailSpec db)) := by
      rw [hi, List.filter_append]
      have h1 : db.transaction_items.filter
          (fun it => it.transactionId = (saleTxnRecord txnId clientId clientName Status.COMPLETED discount cart).id)
          = [] := by
        apply List.filter_eq_nil_iff.mpr
        intro it hit
        simpa using hTidFresh it hit
      have h2 : (saleCreatedItems db txnId itemIds 0 (cart.map (saleDetailSpec db))).filter
          (fun it => it.transactionId = (saleTxnRecord txnId clientId clientName Status.COMPLETED discount cart).id)
          = saleCreatedItems db txnId itemIds 0 (cart.map (saleDetailSpec db)) := by
        apply List.filter_eq_self.mpr
        intro x hx
        simpa using saleCreatedItems_transactionId db txnId itemIds 0 _ x hx
      rw [h1, h2, List.nil_append]
    refine ⟨?_, ?_, ?_⟩
    · rw [hr1, ht, List.filter_append]
      have h1 : db.transactions.filter
          (fun t => ¬ t.id = (saleTxnRecord txnId clientId clientName Status.COMPLETED discount cart).id)
          = db.transactions := by
        apply List.filter_eq_self.mpr
        intro t htm
        simpa using htfresh t htm
      have h2 : ([saleTxnRecord txnId clientId clientName Status.COMPLETED discount cart].filter
          (fun t => ¬ t.id = (saleTxnRecord txnId clientId clientName Status.COMPLETED discount cart).id))
          = [] := by
        simp
      rw [h1, h2, List.append_nil]
    · rw [hr2, hi, List.filter_append]
      have h1 : db.transaction_items.filter
          (fun it => ¬ it.transactionId = (saleTxnRecord txnId clientId clientName Status.COMPLETED discount cart).id)
          = db.transaction_items := by
        apply List.filter_eq_self.mpr
        intro it hit
        simpa using hTidFresh it hit
      have h2 : (saleCreatedItems db txnId itemIds 0 (cart.map (saleDetailSpec db))).filter
          (fun it => ¬ it.transactionId = (saleTxnRecord txnId clientId clientName Status.COMPLETED discount cart).id)
          = [] := by
        apply List.filter_eq_nil_iff.mpr
        intro x hx
        simpa using saleCreatedItems_transactionId db txnId itemIds 0 _ x hx
      rw [h1, h2, List.append_nil]
    · intro c hc
      obtain ⟨p, hp, hb, hle⟩ := hfound c hc
      have hstock : getStock db' c.productId = some (p.currentStock - c.quantity) := by
        have := hs.1 c hc p hp
        rw [this]
        have : fromStockOf p c = c.quantity := min_eq_right hle
        rw [this]
      obtain ⟨p'', hp'', hps⟩ : ∃ p'', findProduct db' c.productId = some p'' ∧
          p''.currentStock = p.currentStock - c.quantity := by
        unfold getStock at hstock
        cases hf : findProduct db' c.productId with
        | none => rw [hf] at hstock; simp at hstock
        | some q =>
          rw [hf] at hstock
          exact ⟨q, rfl, by simpa using hstock⟩
      have hmem : p'' ∈ db'.products := List.mem_of_find?_eq_some hp''
      have hpid : p''.id = c.productId := by
        have := List.find?_some hp''
        simpa using this
      obtain ⟨x, hxf, hxq⟩ := created_filter_single db txnId itemIds cart c hc hndCart 0
      have h3 := hr3 p'' hmem
      rw [hpid] at h3
      rw [h3, hfreshEq, hxf]
      have hadj : ((([x]).map (fun it =>
          if (saleTxnRecord txnId clientId clientName Status.COMPLETED discount cart).type = TxnType.IN
          then it.quantity else -it.quantity)).sum) = c.quantity := by
        simp only [List.map_cons, List.map_nil, List.sum_cons, List.sum_nil]
        rw [if_pos (show (saleTxnRecord txnId clientId clientName Status.COMPLETED discount cart).type
          = TxnType.IN from rfl), hxq]
        omega
      rw [hadj, hps]
      unfold getStock
      rw [hp]
      simp only [Option.map_some']
      congr 1
      omega

/-- Witness for C4: reverting the concrete ASSEMBLY transaction deletes
it, and reverting the scenario-A sale (3 of P from stock 10) restores
P's stock and removes the sale's records. -/
theorem claim_C4_revert_amended_witness :
    ((¬ exAsmTxn.status = Status.CANCELLED) ∧
      (dbAsmDone.transaction_items.map TxnItemRecord.id).Nodup ∧
      (dbAsmDone.products.map Product.id).Nodup ∧
      (handleRevert dbAsmDone exAsmTxn).transactions
        = dbAsmDone.transactions.filter (fun t => ¬ t.id = exAsmTxn.id)) ∧
    (onFinalizeSale dbScenA "t1" ["i1"] "cli" "Cliente" Status.COMPLETED 0 [exItemP]
        = Except.ok (saleFinalState dbScenA "t1" ["i1"] "cli" "Cliente" Status.COMPLETED 0 [exItemP]) ∧
      getStock (handleRevert (saleFinalState dbScenA "t1" ["i1"] "cli" "Cliente" Status.COMPLETED 0 [exItemP])
          (saleTxnRecord "t1" "cli" "Cliente" Status.COMPLETED 0 [exItemP])) "P"
        = getStock dbScenA "P" ∧
      (handleRevert (saleFinalState dbScenA "t1" ["i1"] "cli" "Cliente" Status.COMPLETED 0 [exItemP])
          (saleTxnRecord "t1" "cli" "Cliente" Status.COMPLETED 0 [exItemP])).transactions
        = dbScenA.transactions) := by
  have hok : onFinalizeSale dbScenA "t1" ["i1"] "cli" "Cliente" Status.COMPLETED 0 [exItemP]
      = Except.ok (saleFinalState dbScenA "t1" ["i1"] "cli" "Cliente" Status.COMPLETED 0 [exItemP]) := rfl
  have hfound : ∀ c ∈ [exItemP], ∃ p, findProduct dbScenA c.productId = some p ∧
      hasBom p = false ∧ c.quantity ≤ p.currentStock := by
    intro c hc
    have hce : c = exItemP := by simpa using hc
    rw [hce]
    exact ⟨exP, rfl, rfl, by decide⟩
  have h2 := claim_C4_revert_amended.2 dbScenA "t1" ["i1"] "cli" "Cliente" 0 [exItemP]
    (saleFinalState dbScenA "t1" ["i1"] "cli" "Cliente" Status.COMPLETED 0 [exItemP]) hok hfound
    (by decide) (by decide) (by decide) (by simp [dbScenA]) (by simp [dbScenA])
    (by simp [dbScenA]) (by decide)
  have h1 := claim_C4_revert_amended.1 dbAsmDone exAsmTxn (by decide) (by decide) (by decide)
  exact ⟨⟨by decide, by decide, by decide, h1.1⟩,
    hok, h2.2.2 exItemP (List.mem_cons_self exItemP []), h2.1⟩

theorem purchaseItemOps_mem (db : DB) (txnId : String) (itemIds : List String) (supplierId : String)
    (i : Nat) (items : List PurchaseItem) (op : Op)
    (h : op ∈ purchaseItemOps db txnId itemIds supplierId i items) :
    (∃ x, op = Op.setItem x) ∨
    (∃ it ∈ items, ∃ pr, findProduct db it.productId = some pr ∧
      op = Op.updatePurchase it.productId it.quantity it.price supplierId) := by
  induction items generalizing i with
  | nil => simp [purchaseItemOps] at h
  | cons it rest ih =>
    simp only [purchaseItemOps] at h
    cases hf : findProduct db it.productId with
    | none =>
      rw [hf] at h
      rcases ih i h with h1 | ⟨it', hit', pr, hpr, hop⟩
      · exact Or.inl h1
      · exact Or.inr ⟨it', List.mem_cons_of_mem it hit', pr, hpr, hop⟩
    | some pr =>
      rw [hf] at h
      rcases List.mem_cons.mp h with h1 | h1
      · exact Or.inl ⟨_, h1⟩
      · rcases List.mem_cons.mp h1 with h2 | h2
        · exact Or.inr ⟨it, List.mem_cons_self it rest, pr, hf, h2⟩
        · rcases ih (i + 1) h2 with h3 | ⟨it', hit', pr', hpr', hop⟩
          · exact Or.inl h3
          · exact Or.inr ⟨it', List.mem_cons_of_mem it hit', pr', hpr', hop⟩

theorem purchaseItemOps_filter_target (db : DB) (txnId : String) (itemIds : List String)
    (supplierId : String) (i : Nat) (items : List PurchaseItem) (qid : String)
    (hfound : ∀ it ∈ items, (findProduct db it.productId).isSome = true) :
    (purchaseItemOps db txnId itemIds supplierId i items).filter (fun op => op.target = some qid) =
      (items.filter (fun it => it.productId = qid)).map
        (fun it => Op.updatePurchase it.productId it.quantity it.price supplierId) := by
  induction items generalizing i with
  | nil => rfl
  | cons it rest ih =>
    have hfit := hfound it (List.mem_cons_self it rest)
    obtain ⟨pr, hpr⟩ := Option.isSome_iff_exists.mp hfit
    simp only [purchaseItemOps]
    rw [hpr]
    have hrest := ih (i + 1) (fun x hx => hfound x (List.mem_cons_of_mem it hx))
    by_cases hid : it.productId = qid
    · rw [List.filter_cons_of_neg (by simp [Op.target]),
        List.filter_cons_of_pos (by simp [Op.target, hid]),
        List.filter_cons_of_pos (by simpa using hid), List.map_cons, hrest]
    · rw [List.filter_cons_of_neg (by simp [Op.target]),
        List.filter_cons_of_neg (by simp [Op.target, hid]),
        List.filter_cons_of_neg (by simpa using hid), hrest]

theorem purchaseItemOps_newItems_length (db : DB) (txnId : String) (itemIds : List String)
    (supplierId : String) (i : Nat) (items : List PurchaseItem)
    (hfound : ∀ it ∈ items, (findProduct db it.productId).isSome = true) :
    (newItemsOf (purchaseItemOps db txnId itemIds supplierId i items)).length = items.length := by
  induction items generalizing i with
  | nil => rfl
  | cons it rest ih =>
    have hfit := hfound it (List.mem_cons_self it rest)
    obtain ⟨pr, hpr⟩ := Option.isSome_iff_exists.mp hfit
    simp only [purchaseItemOps]
    rw [hpr]
    simp only [newItemsOf, List.filterMap_cons]
    rw [← newItemsOf]
    simp [ih (i + 1) (fun x hx => hfound x (List.mem_cons_of_mem it hx))]

theorem purchase_newItems_mem_id (db : DB) (txnId : String) (itemIds : List String)
    (supplierId : String) (i : Nat) (items : List PurchaseItem) (x : TxnItemRecord)
    (h : x ∈ newItemsOf (purchaseItemOps db txnId itemIds supplierId i items)) :
    ∃ k, k < items.length ∧ x.id = itemIds.getD (i + k) "" := by
  induction items generalizing i with
  | nil => simp [purchaseItemOps, newItemsOf] at h
  | cons it rest ih =>
    simp only [purchaseItemOps] at h
    cases hf : findProduct db it.productId with
    | none =>
      rw [hf] at h
      obtain ⟨k, hk, hid⟩ := ih i h
      exact ⟨k, by simp [List.length_cons]; omega, hid⟩
    | some pr =>
      rw [hf] at h
      simp only [newItemsOf, List.filterMap_cons] at h
      rw [← newItemsOf] at h
      rcases List.mem_cons.mp h with h1 | h1
      · exact ⟨0, by simp, by rw [h1]; rfl⟩
      · obtain ⟨k, hk, hid⟩ := ih (i + 1) h1
        exact ⟨k + 1, by simpa using Nat.succ_lt_succ hk, by rw [hid]; congr 1; omega⟩

theorem purchase_newItems_id_nodup (db : DB) (txnId : String) (itemIds : List String)
    (supplierId : String) (i : Nat) (items : List PurchaseItem)
    (hnodup : ∀ k k', k < k' → k' < items.length →
      ¬ itemIds.getD (i + k) "" = itemIds.getD (i + k') "") :
    ((newItemsOf (purchaseItemOps db txnId itemIds supplierId i items)).map TxnItemRecord.id).Nodup := by
  induction items generalizing i with
  | nil => simp [purchaseItemOps, newItemsOf]
  | cons it rest ih =>
    simp only [purchaseItemOps]
    cases hf : findProduct db it.productId with
    | none =>
      exact ih i (fun k k' hkk hk' => hnodup k k' hkk (by simp [List.length_cons]; omega))
    | some pr =>
      simp only [newItemsOf, List.filterMap_cons]
      rw [← newItemsOf]
      simp only [List.map_cons, List.nodup_cons]
      constructor
      · intro hc
        obtain ⟨x, hx, hxid⟩ := List.mem_map.mp hc
        obtain ⟨k, hk, hid⟩ := purchase_newItems_mem_id db txnId itemIds supplierId (i + 1) rest x hx
        have hne := hnodup 0 (k + 1) (Nat.succ_pos k) (by simpa using Nat.succ_lt_succ hk)
        apply hne
        have h0 : i + 0 = i := by omega
        have h1 : i + (k + 1) = i + 1 + k := by omega
        rw [h0, h1, ← hid, hxid]
      · exact ih (i + 1) (fun k k' hkk hk' => by
          have h1 : i + 1 + k = i + (k + 1) := by omega
          have h2 : i + 1 + k' = i + (k' + 1) := by omega
          rw [h1, h2]
          exact hnodup (k + 1) (k' + 1) (by omega) (by simpa using Nat.succ_lt_succ hk'))

theorem purchase_ops_newTxns (db : DB) (txnId : String) (itemIds : List String)
    (supplierId invoiceNumber notes : String) (discountValue : Rat) (items : List PurchaseItem) :
    newTxnsOf (Op.setTxn (purchaseTxnRecord txnId supplierId invoiceNumber notes discountValue items)
      :: purchaseItemOps db txnId itemIds supplierId 0 items) =
      [purchaseTxnRecord txnId supplierId invoiceNumber notes discountValue items] := by
  simp only [newTxnsOf, List.filterMap_cons]
  rw [← newTxnsOf, newTxnsOf_no_setTxn]
  intro t hc
  rcases purchaseItemOps_mem db txnId itemIds supplierId 0 items _ hc with ⟨x, hx⟩ |
    ⟨it, hit, pr, hpr, hx⟩ <;> exact Op.noConfusion hx

theorem purchase_txns_char (db : DB) (txnId : String) (itemIds : List String)
    (supplierId invoiceNumber notes : String) (discountValue : Rat) (items : List PurchaseItem)
    (htfresh : ∀ t ∈ db.transactions, ¬ t.id = txnId) :
    (onFinalizePurchase db txnId itemIds supplierId invoiceNumber notes discountValue items).transactions
      = db.transactions
        ++ [purchaseTxnRecord txnId supplierId invoiceNumber notes discountValue items] := by
  rw [onFinalizePurchase, commitOps_txns, foldTxns_append]
  · rw [purchase_ops_newTxns]
  · intro i hc
    rcases List.mem_cons.mp hc with h1 | h1
    · exact Op.noConfusion h1
    · rcases purchaseItemOps_mem db txnId itemIds supplierId 0 items _ h1 with ⟨x, hx⟩ |
        ⟨it, hit, pr, hpr, hx⟩ <;> exact Op.noConfusion hx
  · rw [purchase_ops_newTxns]
    intro x hx t ht
    have hxr : x = purchaseTxnRecord txnId supplierId invoiceNumber notes discountValue items := by
      simpa using hx
    rw [hxr]
    exact htfresh t ht
  · rw [purchase_ops_newTxns]
    simp

/-- C6 (confirmed).  For every finalized purchase whose lines all
reference existing products with pairwise-distinct ids: each line's
product gains the line quantity (via the increment sentinel), its
`costPrice` is overwritten with the line's unit cost (last-cost-wins)
and its `supplierId` is set; exactly one Transaction of type OUT with
`netTotal = subtotal - discount` plus one TransactionItem per line are
persisted; the operation performs no stock-sufficiency check and never
fails. -/
theorem claim_C6_purchase_effects (db : DB) (txnId : String) (itemIds : List String)
    (supplierId invoiceNumber notes : String) (discountValue : Rat) (items : List PurchaseItem)
    (hfound : ∀ it ∈ items, (findProduct db it.productId).isSome = true)
    (hnd : (items.map PurchaseItem.productId).Nodup)
    (htfresh : ∀ t ∈ db.transactions, ¬ t.id = txnId)
    (hif1 : ∀ k, k < items.length → ∀ it ∈ db.transaction_items, ¬ it.id = itemIds.getD k "")
    (hif2 : ∀ k, k < items.length → ∀ k', k' < items.length → ¬ k = k' →
      ¬ itemIds.getD k "" = itemIds.getD k' "") :
    (∀ it ∈ items, ∀ p, findProduct db it.productId = some p →
      findProduct (onFinalizePurchase db txnId itemIds supplierId invoiceNumber notes discountValue items)
          it.productId
        = some { p with currentStock := p.currentStock + it.quantity, costPrice := it.price, supplierId := some supplierId }) ∧
    (onFinalizePurchase db txnId itemIds supplierId invoiceNumber notes discountValue items).transactions
      = db.transactions ++ [purchaseTxnRecord txnId supplierId invoiceNumber notes discountValue items] ∧
    (purchaseTxnRecord txnId supplierId invoiceNumber notes discountValue items).type = TxnType.OUT ∧
    (purchaseTxnRecord txnId supplierId invoiceNumber notes discountValue items).netTotal
      = purchaseSubtotal items - discountValue ∧
    (onFinalizePurchase db txnId itemIds supplierId invoiceNumber notes discountValue items).transaction_items.length
      = db.transaction_items.length + items.length := by
  refine ⟨?_, purchase_txns_char db txnId itemIds supplierId invoiceNumber notes discountValue items htfresh,
    rfl, rfl, ?_⟩
  · intro it hit p hp
    have hsingle : ((Op.setTxn (purchaseTxnRecord txnId supplierId invoiceNumber notes discountValue items)
        :: purchaseItemOps db txnId itemIds supplierId 0 items).filter
      (fun op => op.target = some it.productId)) =
        [Op.updatePurchase it.productId it.quantity it.price supplierId] := by
      rw [List.filter_cons_of_neg (by simp [Op.target]),
        purchaseItemOps_filter_target db txnId itemIds supplierId 0 items it.productId hfound,
        filter_key_single PurchaseItem.productId items it hit hnd]
      rfl
    rw [onFinalizePurchase]
    unfold findProduct
    rw [commitOps_products, foldProducts_find_single _ it.productId _ hsingle]
    unfold findProduct at hp
    rw [hp]
    rfl
  · rw [onFinalizePurchase, commitOps_items, foldItems_append]
    · rw [List.length_append]
      congr 1
      have h0 : newItemsOf (Op.setTxn (purchaseTxnRecord txnId supplierId invoiceNumber notes discountValue items)
          :: purchaseItemOps db txnId itemIds supplierId 0 items)
          = newItemsOf (purchaseItemOps db txnId itemIds supplierId 0 items) := by
        simp [newItemsOf, List.filterMap_cons]
      rw [h0]
      exact purchaseItemOps_newItems_length db txnId itemIds supplierId 0 items hfound
    · intro i hc
      rcases List.mem_cons.mp hc with h1 | h1
      · exact Op.noConfusion h1
      · rcases purchaseItemOps_mem db txnId itemIds supplierId 0 items _ h1 with ⟨x, hx⟩ |
          ⟨it, hit, pr, hpr, hx⟩ <;> exact Op.noConfusion hx
    · intro x hx itr hitr
      have hx' : x ∈ newItemsOf (purchaseItemOps db txnId itemIds supplierId 0 items) := by
        simpa [newItemsOf, List.filterMap_cons] using hx
      obtain ⟨k, hk, hid⟩ := purchase_newItems_mem_id db txnId itemIds supplierId 0 items x hx'
      rw [hid]
      have h0 : (0 : Nat) + k = k := by omega
      rw [h0]
      exact hif1 k hk itr hitr
    · have hx' : newItemsOf (Op.setTxn (purchaseTxnRecord txnId supplierId invoiceNumber notes discountValue items)
          :: purchaseItemOps db txnId itemIds supplierId 0 items)
          = newItemsOf (purchaseItemOps db txnId itemIds supplierId 0 items) := by
        simp [newItemsOf, List.filterMap_cons]
      rw [hx']
      apply purchase_newItems_id_nodup
      intro k k' hkk hk'
      have e0 : (0 : Nat) + k = k := by omega
      have e1 : (0 : Nat) + k' = k' := by omega
      rw [e0, e1]
      exact hif2 k (by omega) k' hk' (by omega)

/-- Witness for C6 at scenario D: purchasing 5 units of P at cost 20
sets P's stock to 15, costPrice to 20, supplier to the purchase's
supplier, and appends one OUT Transaction with netTotal 100 and one
TransactionItem. -/
theorem claim_C6_purchase_effects_witness :
    (∀ it ∈ [exPurItem], (findProduct dbScenA it.productId).isSome = true) ∧
    findProduct (onFinalizePurchase dbScenA "t1" ["i1"] "sup" "" "" 0 [exPurItem]) "P"
      = some { exP with currentStock := 15, costPrice := 20, supplierId := some "sup" } ∧
    (onFinalizePurchase dbScenA "t1" ["i1"] "sup" "" "" 0 [exPurItem]).transaction_items.length
      = dbScenA.transaction_items.length + 1 := by
  have hfound : ∀ it ∈ [exPurItem], (findProduct dbScenA it.productId).isSome = true := by
    intro it hit
    have hce : it = exPurItem := by simpa using hit
    rw [hce]
    rfl
  have h := claim_C6_purchase_effects dbScenA "t1" ["i1"] "sup" "" "" 0 [exPurItem] hfound
    (by decide) (by simp [dbScenA]) (by simp [dbScenA]) (by decide)
  refine ⟨hfound, ?_, h.2.2.2.2⟩
  have h1 := h.1 exPurItem (List.mem_cons_self exPurItem []) exP rfl
  exact h1

theorem asmCheckComponents_err (db : DB) (q : Int) (bom : List BomEntry)
    (h : ∃ comp ∈ bom, findProduct db comp.productId = none) :
    ∃ e, asmCheckComponents db q bom = Except.error e := by
  induction bom with
  | nil => simp at h
  | cons comp rest ih =>
    obtain ⟨c0, hc0, hbad⟩ := h
    cases hf : findProduct db comp.productId with
    | none =>
      exact ⟨AsmError.componentNotFound comp.productId, by simp [asmCheckComponents, hf]⟩
    | some cp =>
      by_cases hav : cp.currentStock < q * comp.quantity
      · exact ⟨AsmError.insufficientComponent cp.name (q * comp.quantity) cp.currentStock,
          by simp [asmCheckComponents, hf, hav]⟩
      · rcases List.mem_cons.mp hc0 with h1 | h1
        · rw [h1, hf] at hbad
          exact absurd hbad (by simp)
        · obtain ⟨e, he⟩ := ih ⟨c0, h1, hbad⟩
          exact ⟨e, by simp [asmCheckComponents, hf, hav, he, Except.map]⟩

/-- C9 counterexample: a purchase whose single line references the
nonexistent product id "X" does NOT fail — it commits the Transaction
record anyway, silently skips the line (no TransactionItem) and leaves
the product list unchanged, refuting "fails the whole operation before
any write" for the purchase path. -/
theorem claim_C9_counterexample_purchase_missing :
    findProduct dbScenA exPurMissing.productId = none ∧
    (onFinalizePurchase dbScenA "t1" ["i1"] "sup" "" "" 0 [exPurMissing]).transactions.length = 1 ∧
    (onFinalizePurchase dbScenA "t1" ["i1"] "sup" "" "" 0 [exPurMissing]).transaction_items = [] ∧
    (onFinalizePurchase dbScenA "t1" ["i1"] "sup" "" "" 0 [exPurMissing]).products = dbScenA.products :=
  ⟨rfl, rfl, rfl, rfl⟩

/-- C9 (amended).  NotFound aborts before any write in the sale and
assembly paths only: a sale whose cart references a missing product
fails and leaves the store unchanged; an assembly whose final product
is missing fails with finalNotFound, and one whose BOM references a
missing component also fails, both leaving the store unchanged.  The
purchase path, by contrast, never fails on a missing product: it still
commits its Transaction record and merely skips the missing line, and
the missing product remains absent. -/
theorem claim_C9_notfound_amended (db : DB)
    (txnId : String) (itemIds : List String) (clientId clientName : String)
    (st : Status) (discount : Rat) (cart : List CartItem) (c : CartItem)
    (hc : c ∈ cart) (hcn : findProduct db c.productId = none)
    (atxnId : String) (aitemIds : List String) (finalItemId fpId : String) (qa : Int)
    (ptxnId : String) (pitemIds : List String) (supplierId invoiceNumber notes : String)
    (dv : Rat) (items : List PurchaseItem) (pit : PurchaseItem)
    (hpit : pit ∈ items) (hpn : findProduct db pit.productId = none)
    (htfresh : ∀ t ∈ db.transactions, ¬ t.id = ptxnId) :
    ((∃ e, onFinalizeSale db txnId itemIds clientId clientName st discount cart = Except.error e) ∧
      saleFinalState db txnId itemIds clientId clientName st discount cart = db) ∧
    ((findProduct db fpId = none →
        processAssemblyToStock db atxnId aitemIds finalItemId fpId qa
          = Except.error AsmError.finalNotFound ∧
        asmFinalState db atxnId aitemIds finalItemId fpId qa = db) ∧
      (∀ fp, findProduct db fpId = some fp →
        (∃ comp ∈ fp.bom.getD [], findProduct db comp.productId = none) →
        (∃ e, processAssemblyToStock db atxnId aitemIds finalItemId fpId qa = Except.error e) ∧
        asmFinalState db atxnId aitemIds finalItemId fpId qa = db)) ∧
    ((onFinalizePurchase db ptxnId pitemIds supplierId invoiceNumber notes dv items).transactions
        = db.transactions ++ [purchaseTxnRecord ptxnId supplierId invoiceNumber notes dv items] ∧
      findProduct (onFinalizePurchase db ptxnId pitemIds supplierId invoiceNumber notes dv items)
        pit.productId = none) := by
  refine ⟨?_, ⟨?_, ?_⟩, ?_, ?_⟩
  · obtain ⟨e1, he1⟩ := checkItem_err db c (Or.inl hcn)
    obtain ⟨e, he⟩ := saleReadPhase_err db cart ⟨c, hc, e1, he1⟩
    have hsale : onFinalizeSale db txnId itemIds clientId clientName st discount cart
        = Except.error e := by
      simp only [onFinalizeSale, saleOps, he]
      rfl
    refine ⟨⟨e, hsale⟩, ?_⟩
    unfold saleFinalState
    rw [hsale]
  · intro hnone
    have hproc : processAssemblyToStock db atxnId aitemIds finalItemId fpId qa
        = Except.error AsmError.finalNotFound := by
      simp [processAssemblyToStock, hnone]
    refine ⟨hproc, ?_⟩
    unfold asmFinalState
    rw [hproc]
  · intro fp hfp hcomp
    obtain ⟨comp0, hcm, hcn0⟩ := hcomp
    have hb : hasBom fp = true := mem_bomGetD_hasBom fp comp0 hcm
    obtain ⟨e, he⟩ := asmCheckComponents_err db qa (fp.bom.getD []) ⟨comp0, hcm, hcn0⟩
    have hproc : processAssemblyToStock db atxnId aitemIds finalItemId fpId qa
        = Except.error e := by
      simp only [processAssemblyToStock, hfp, if_pos hb, he]
      rfl
    refine ⟨⟨e, hproc⟩, ?_⟩
    unfold asmFinalState
    rw [hproc]
  · exact purchase_txns_char db ptxnId pitemIds supplierId invoiceNumber notes dv items htfresh
  · have hnotarget : ∀ op ∈ (Op.setTxn (purchaseTxnRecord ptxnId supplierId invoiceNumber notes dv items)
        :: purchaseItemOps db ptxnId pitemIds supplierId 0 items), ¬ op.target = some pit.productId := by
      intro op hop
      rcases List.mem_cons.mp hop with h1 | h1
      · rw [h1]
        simp [Op.target]
      · rcases purchaseItemOps_mem db ptxnId pitemIds supplierId 0 items op h1 with
          ⟨x, hx⟩ | ⟨it, hit, pr, hpr, hx⟩
        · rw [hx]
          simp [Op.target]
        · rw [hx]
          simp only [Op.target]
          intro hcontra
          have hidq : it.productId = pit.productId := by simpa using hcontra
          rw [hidq, hpn] at hpr
          exact Option.noConfusion hpr
    rw [onFinalizePurchase]
    unfold findProduct
    rw [commitOps_products, foldProducts_find_untargeted _ _ hnotarget]
    unfold findProduct at hpn
    exact hpn

/-- Witness for C9 at concrete inputs: a sale of a missing product F
against the P-only store fails and leaves it unchanged, an assembly of
the missing final product F fails and leaves it unchanged, and a
purchase of the missing product X still commits its Transaction while X
stays absent. -/
theorem claim_C9_notfound_amended_witness :
    ((∃ e, onFinalizeSale dbScenA "t1" ["i1"] "cl" "Cl" Status.COMPLETED 0 [exItemF]
        = Except.error e) ∧
      saleFinalState dbScenA "t1" ["i1"] "cl" "Cl" Status.COMPLETED 0 [exItemF] = dbScenA) ∧
    (processAssemblyToStock dbScenA "t2" ["i2"] "fi" "F" 1 = Except.error AsmError.finalNotFound ∧
      asmFinalState dbScenA "t2" ["i2"] "fi" "F" 1 = dbScenA) ∧
    ((onFinalizePurchase dbScenA "t3" ["i3"] "sup" "" "" 0 [exPurMissing]).transactions
        = dbScenA.transactions ++ [purchaseTxnRecord "t3" "sup" "" "" 0 [exPurMissing]] ∧
      findProduct (onFinalizePurchase dbScenA "t3" ["i3"] "sup" "" "" 0 [exPurMissing])
        exPurMissing.productId = none) := by
  have h := claim_C9_notfound_amended dbScenA "t1" ["i1"] "cl" "Cl" Status.COMPLETED 0 [exItemF]
    exItemF (List.mem_cons_self exItemF []) rfl "t2" ["i2"] "fi" "F" 1 "t3" ["i3"] "sup" "" "" 0
    [exPurMissing] exPurMissing (List.mem_cons_self exPurMissing []) rfl (by simp [dbScenA])
  exact ⟨h.1, h.2.1.1 rfl, h.2.2⟩
